import Mathlib

/-!
Verification of the Burfisher/Kingfisher Caido plugin backend
(`src/backend/src/scanner.ts`, `src/backend/src/findings.ts`,
`src/backend/src/index.ts`; the claims reference the second variant of
`scanner.ts`, the one bundled as the "Kingfisher" plugin).

JavaScript strings are modelled as lists of Unicode scalar values
(`Str := List Char`).  Where UTF-16 code-unit semantics is observable
(the emoji character class of the pretty-output rule regex, which is
compiled without the `u` flag), strings are additionally lowered to
their UTF-16 code-unit sequences.  External effects (the Caido request
store, the file system, the subprocess) are modelled by an explicit
environment record and an event trace.
-/

namespace Burfisher

/-- JavaScript strings, modelled as lists of Unicode scalar values. -/
abbrev Str := List Char

/-- Coerce a Lean string literal into the model. -/
def str (s : String) : Str := s.data

/-- The set matched by the JavaScript regex class `\s` (also the set
stripped by `String.prototype.trim`): ASCII whitespace, NBSP and the
Unicode space separators, line/paragraph separators and the BOM. -/
def isJsWs (c : Char) : Bool :=
  c.toNat = 0x9 || c.toNat = 0xA || c.toNat = 0xB || c.toNat = 0xC ||
  c.toNat = 0xD || c.toNat = 0x20 || c.toNat = 0xA0 || c.toNat = 0x1680 ||
  (0x2000 ≤ c.toNat && c.toNat ≤ 0x200A) ||
  c.toNat = 0x2028 || c.toNat = 0x2029 || c.toNat = 0x202F ||
  c.toNat = 0x205F || c.toNat = 0x3000 || c.toNat = 0xFEFF

/-- Whitespace accepted between tokens by `JSON.parse`. -/
def isJsonWs (c : Char) : Bool :=
  c = ' ' || c = '\t' || c = '\n' || c = '\r'

/-- `String.prototype.trim`: drop `\s`-whitespace from both ends. -/
def jsTrim (s : Str) : Str :=
  ((s.dropWhile isJsWs).reverse.dropWhile isJsWs).reverse

/-- ASCII-only lower-casing of a single character.  JavaScript
`toLowerCase` uses the full Unicode mapping; the pipeline only ever
compares the result against ASCII keywords, so the ASCII mapping is the
faithful fragment. -/
def asciiLower (c : Char) : Char :=
  if 'A' ≤ c && c ≤ 'Z' then Char.ofNat (c.toNat + 32) else c

/-- `value.toLowerCase()` on the modelled fragment. -/
def jsToLower (s : Str) : Str := s.map asciiLower

/-- The three-valued confidence enumeration of the `Finding` schema. -/
inductive Confidence where
  | low
  | medium
  | high
deriving DecidableEq, Repr

/-- `KingfisherScanner.normalizeConfidence` (scanner.ts:907).
`none` models a `null`/`undefined` raw value: `value?.toLowerCase()`
yields `undefined`, and `undefined || "medium"` yields `"medium"`; an
empty lower-cased string is likewise falsy and replaced by `"medium"`. -/
def normalizeConfidence (value : Option Str) : Confidence :=
  let lower : Str :=
    match value with
    | none => str "medium"
    | some v => if jsToLower v = [] then str "medium" else jsToLower v
  if lower = str "high" then .high
  else if lower = str "low" then .low
  else .medium

/-- `KingfisherScanner.maskSecret` (scanner.ts:914).  `!value` is string
falsiness, i.e. emptiness; `value.slice(0, visible)` is `take`,
`value.slice(-visible)` is the last `visible` characters (here
`visible ≥ 2 > 0` whenever the branch is reached). -/
def maskSecret (value : Str) : Str :=
  if value = [] || value.length ≤ 8 then value
  else
    let visible := min 4 (value.length / 4)
    value.take visible
      ++ List.replicate (value.length - visible * 2) '█'
      ++ value.drop (value.length - visible)

/-- **C4** — `normalizeConfidence` is total into {low, medium, high} (by
its result type); a raw value lower-casing to `"high"` maps to `high`,
one lower-casing to `"low"` maps to `low`, and every other value —
missing (`none`), empty, or unrecognized — maps to `medium`; in
particular `"High"`, `"HIGH"`, `"high"` map to `high` and `""`, `none`,
`"weird"` map to `medium`. -/
theorem normalizeConfidence_spec :
    (∀ v : Str, jsToLower v = str "high" →
      normalizeConfidence (some v) = .high) ∧
    (∀ v : Str, jsToLower v = str "low" →
      normalizeConfidence (some v) = .low) ∧
    (normalizeConfidence none = .medium) ∧
    (∀ v : Str, jsToLower v ≠ str "high" → jsToLower v ≠ str "low" →
      normalizeConfidence (some v) = .medium) ∧
    (normalizeConfidence (some (str "High")) = .high ∧
     normalizeConfidence (some (str "HIGH")) = .high ∧
     normalizeConfidence (some (str "high")) = .high ∧
     normalizeConfidence (some (str "")) = .medium ∧
     normalizeConfidence (some (str "weird")) = .medium) := by
  refine ⟨?_, ?_, by decide, ?_, by decide⟩
  · intro v h
    simp only [normalizeConfidence, h]
    decide
  · intro v h
    simp only [normalizeConfidence, h]
    decide
  · intro v hh hl
    simp only [normalizeConfidence]
    by_cases h0 : jsToLower v = ([] : Str)
    · simp only [h0]
      decide
    · simp only [if_neg h0, if_neg hh, if_neg hl]

/-- Witness for C4 at concrete inputs. -/
theorem normalizeConfidence_spec_witness :
    normalizeConfidence (some (str "HIGH")) = .high ∧
    normalizeConfidence (some (str "weird")) = .medium := by
  exact ⟨normalizeConfidence_spec.1 (str "HIGH") (by decide),
         normalizeConfidence_spec.2.2.2.1 (str "weird") (by decide)
           (by decide)⟩

/-- **C5** — `maskSecret` returns its input unchanged when the length is
at most 8; for longer inputs, with `visible = min 4 (length / 4)` the
result is the first `visible` characters, the block glyph repeated
`length − 2·visible` times, and the last `visible` characters; masking
`"abcdefghij"` yields `"ab"` ++ six blocks ++ `"ij"`. -/
theorem maskSecret_spec :
    (∀ v : Str, v.length ≤ 8 → maskSecret v = v) ∧
    (∀ v : Str, 8 < v.length →
      maskSecret v =
        v.take (min 4 (v.length / 4))
          ++ List.replicate (v.length - min 4 (v.length / 4) * 2) '█'
          ++ v.drop (v.length - min 4 (v.length / 4))) ∧
    maskSecret (str "abcdefghij")
      = str "ab" ++ List.replicate 6 '█' ++ str "ij" := by
  refine ⟨?_, ?_, by decide⟩
  · intro v h
    simp [maskSecret, h]
  · intro v h
    have h8 : ¬ v.length ≤ 8 := Nat.not_le.mpr h
    have hne : ¬ v = [] := by
      intro h0; rw [h0] at h; exact absurd h (by decide)
    simp [maskSecret, hne, h8]

/-- Witness for C5: apply the theorem on both sides of the length split. -/
theorem maskSecret_spec_witness :
    maskSecret (str "abc") = str "abc" ∧
    maskSecret (str "abcdefghij")
      = (str "abcdefghij").take 2 ++ List.replicate 6 '█'
        ++ (str "abcdefghij").drop 8 := by
  constructor
  · exact maskSecret_spec.1 (str "abc") (by decide)
  · have h := maskSecret_spec.2.1 (str "abcdefghij") (by decide)
    exact h

/-- **C9** — masking never changes the length of a snippet. -/
theorem maskSecret_length (v : Str) : (maskSecret v).length = v.length := by
  unfold maskSecret
  split
  · rfl
  · next h =>
    have h8 : 8 < v.length := by
      rcases Bool.or_eq_false_iff.mp (Bool.eq_false_iff.mpr h) with ⟨_, h2⟩
      simp only [decide_eq_false_iff_not, Nat.not_le] at h2
      exact h2
    simp only [List.length_append, List.length_take, List.length_replicate,
      List.length_drop]
    have hmin : min 4 (v.length / 4) ≤ 4 := Nat.min_le_left _ _
    have hmin2 : min 4 (v.length / 4) ≤ v.length / 4 := Nat.min_le_right _ _
    have hd : v.length / 4 * 4 ≤ v.length := Nat.div_mul_le_self _ _
    omega

/-! ## JSON values and `JSON.parse`

`parseOutput` (scanner.ts:921) feeds candidate substrings to
`JSON.parse`.  JSON values are modelled with numbers kept as their raw
lexemes (the pipeline never does arithmetic on them). -/

inductive Json where
  | null
  | bool (b : Bool)
  | num (lexeme : Str)
  | str (s : Str)
  | arr (elems : List Json)
  | obj (fields : List (Str × Json))

/-- Property lookup on an object literal: with duplicate keys the last
assignment wins, as in JavaScript. -/
def lookupLast (fields : List (Str × Json)) (key : Str) : Option Json :=
  match fields with
  | [] => none
  | (k, v) :: rest =>
    match lookupLast rest key with
    | some r => some r
    | none => if k = key then some v else none

def isDigit (c : Char) : Bool := '0' ≤ c && c ≤ '9'

def isHexDigit (c : Char) : Bool :=
  isDigit c || ('a' ≤ c && c ≤ 'f') || ('A' ≤ c && c ≤ 'F')

def hexVal (c : Char) : Nat :=
  if isDigit c then c.toNat - '0'.toNat
  else if 'a' ≤ c && c ≤ 'f' then c.toNat - 'a'.toNat + 10
  else c.toNat - 'A'.toNat + 10

/-- Body of a JSON string literal, after the opening quote: returns the
decoded characters and the input following the closing quote.  Raw
control characters are rejected, escapes are decoded; a `\uXXXX` escape
denoting a surrogate half is not a Unicode scalar and is mapped to the
`Char.ofNat` default. -/
def jstringAux : Str → Option (Str × Str)
  | [] => none
  | '"' :: rest => some ([], rest)
  | '\\' :: rest =>
    match rest with
    | '"' :: r => (jstringAux r).map (fun p => ('"' :: p.1, p.2))
    | '\\' :: r => (jstringAux r).map (fun p => ('\\' :: p.1, p.2))
    | '/' :: r => (jstringAux r).map (fun p => ('/' :: p.1, p.2))
    | 'b' :: r => (jstringAux r).map (fun p => ('\x08' :: p.1, p.2))
    | 'f' :: r => (jstringAux r).map (fun p => ('\x0c' :: p.1, p.2))
    | 'n' :: r => (jstringAux r).map (fun p => ('\n' :: p.1, p.2))
    | 'r' :: r => (jstringAux r).map (fun p => ('\r' :: p.1, p.2))
    | 't' :: r => (jstringAux r).map (fun p => ('\t' :: p.1, p.2))
    | 'u' :: h1 :: h2 :: h3 :: h4 :: r =>
      if isHexDigit h1 && isHexDigit h2 && isHexDigit h3 && isHexDigit h4 then
        (jstringAux r).map (fun p =>
          (Char.ofNat (((hexVal h1 * 16 + hexVal h2) * 16 + hexVal h3) * 16
            + hexVal h4) :: p.1, p.2))
      else none
    | _ => none
  | c :: rest =>
    if c.toNat < 0x20 then none
    else (jstringAux rest).map (fun p => (c :: p.1, p.2))

/-- One or more decimal digits. -/
def jdigits (s : Str) : Option (Str × Str) :=
  let d := s.takeWhile isDigit
  if d = [] then none else some (d, s.drop d.length)

/-- JSON integer part: either a lone `0` or a nonzero digit followed by
digits. -/
def jint (s : Str) : Option (Str × Str) :=
  match s with
  | '0' :: r => some (['0'], r)
  | c :: r =>
    if isDigit c then
      some (c :: r.takeWhile isDigit, r.drop (r.takeWhile isDigit).length)
    else none
  | [] => none

/-- Optional fraction part (requires digits when a dot is present). -/
def jfrac (s : Str) : Option (Str × Str) :=
  match s with
  | '.' :: r =>
    match jdigits r with
    | some (d, rest) => some ('.' :: d, rest)
    | none => none
  | _ => some ([], s)

/-- Optional exponent part. -/
def jexp (s : Str) : Option (Str × Str) :=
  match s with
  | c :: r =>
    if c = 'e' || c = 'E' then
      match r with
      | s2 :: r2 =>
        if s2 = '+' || s2 = '-' then
          match jdigits r2 with
          | some (d, rest) => some (c :: s2 :: d, rest)
          | none => none
        else
          match jdigits r with
          | some (d, rest) => some (c :: d, rest)
          | none => none
      | [] => none
    else some ([], s)
  | [] => some ([], s)

/-- A JSON number lexeme. -/
def jnumber (s : Str) : Option (Str × Str) :=
  let (sign, s1) : Str × Str :=
    match s with
    | '-' :: r => (['-'], r)
    | _ => ([], s)
  match jint s1 with
  | none => none
  | some (ip, s2) =>
    match jfrac s2 with
    | none => none
    | some (fp, s3) =>
      match jexp s3 with
      | none => none
      | some (ep, s4) => some (sign ++ ip ++ fp ++ ep, s4)

mutual

/-- One JSON value (fuelled recursion; the fuel only bounds nesting and
is chosen large enough by `jparse`). -/
def jvalue : Nat → Str → Option (Json × Str)
  | 0, _ => none
  | fuel+1, s =>
    match s with
    | [] => none
    | '{' :: r =>
      (jfields fuel (r.dropWhile isJsonWs)).map (fun p => (Json.obj p.1, p.2))
    | '[' :: r =>
      (jelems fuel (r.dropWhile isJsonWs)).map (fun p => (Json.arr p.1, p.2))
    | '"' :: r => (jstringAux r).map (fun p => (Json.str p.1, p.2))
    | 't' :: 'r' :: 'u' :: 'e' :: r => some (Json.bool true, r)
    | 'f' :: 'a' :: 'l' :: 's' :: 'e' :: r => some (Json.bool false, r)
    | 'n' :: 'u' :: 'l' :: 'l' :: r => some (Json.null, r)
    | c :: _ =>
      if c = '-' || isDigit c then
        (jnumber s).map (fun p => (Json.num p.1, p.2))
      else none

/-- Array elements after `[` and whitespace: an immediate `]` or a
nonempty comma-separated list. -/
def jelems : Nat → Str → Option (List Json × Str)
  | 0, _ => none
  | fuel+1, s =>
    match s with
    | ']' :: r => some ([], r)
    | _ => jelemsMore fuel s

/-- One array element and the continuation (`,` or `]`). -/
def jelemsMore : Nat → Str → Option (List Json × Str)
  | 0, _ => none
  | fuel+1, s =>
    match jvalue fuel s with
    | none => none
    | some (v, rest) =>
      match rest.dropWhile isJsonWs with
      | ',' :: r2 =>
        (jelemsMore fuel (r2.dropWhile isJsonWs)).map
          (fun p => (v :: p.1, p.2))
      | ']' :: r2 => some ([v], r2)
      | _ => none

/-- Object members after `{` and whitespace. -/
def jfields : Nat → Str → Option (List (Str × Json) × Str)
  | 0, _ => none
  | fuel+1, s =>
    match s with
    | '}' :: r => some ([], r)
    | _ => jfieldsMore fuel s

/-- One `"key": value` member and the continuation (`,` or `}`). -/
def jfieldsMore : Nat → Str → Option (List (Str × Json) × Str)
  | 0, _ => none
  | fuel+1, s =>
    match s with
    | '"' :: r =>
      match jstringAux r with
      | none => none
      | some (key, rest) =>
        match rest.dropWhile isJsonWs with
        | ':' :: r2 =>
          match jvalue fuel (r2.dropWhile isJsonWs) with
          | none => none
          | some (v, rest2) =>
            match rest2.dropWhile isJsonWs with
            | ',' :: r3 =>
              (jfieldsMore fuel (r3.dropWhile isJsonWs)).map
                (fun p => ((key, v) :: p.1, p.2))
            | '}' :: r3 => some ([(key, v)], r3)
            | _ => none
        | _ => none
    | _ => none

end

/-- `JSON.parse`: optional surrounding whitespace around exactly one
value.  Fuel `4·|s| + 4` dominates the recursion depth (at most three
fuel steps are spent per consumed character). -/
def jparse (s : Str) : Option Json :=
  match jvalue (4 * s.length + 4) (s.dropWhile isJsonWs) with
  | some (v, rest) => if rest.dropWhile isJsonWs = [] then some v else none
  | none => none

/-! ## `KingfisherScanner.parseOutput` (scanner.ts:921-978) -/

/-- The inner scan of `parseOutput` that finds the end of a candidate
document: depth counting over braces/brackets outside of strings, with
escape-aware quote tracking.  `some n` means the depth returned to zero
after `n` characters (the `idx++; break` exit); `none` means the scan
ran off the end of the input.  The depth is an integer: the JavaScript
counter can go negative on stray closers, and `-1 + 1 = 0` must not be
confused with a balanced close. -/
def scanStop : Str → Int → Bool → Bool → Option Nat
  | [], _, _, _ => none
  | c :: rest, depth, inStr, esc =>
    if esc then (scanStop rest depth inStr false).map (· + 1)
    else if c = '\\' then (scanStop rest depth inStr true).map (· + 1)
    else if c = '"' then (scanStop rest depth (!inStr) false).map (· + 1)
    else if !inStr && (c = '{' || c = '[') then
      (scanStop rest (depth + 1) inStr false).map (· + 1)
    else if !inStr && (c = '}' || c = ']') then
      if depth - 1 = 0 then some 1
      else (scanStop rest (depth - 1) inStr false).map (· + 1)
    else (scanStop rest depth inStr false).map (· + 1)

/-- Findings contributed by one parsed document: an object with an array
`findings` field contributes that array, a bare array contributes its
elements, everything else contributes nothing (falsy documents are
filtered by `doc &&`, and `Array.isArray` rejects non-arrays). -/
def extractFindings : Json → List Json
  | .obj fields =>
    match lookupLast fields (str "findings") with
    | some (.arr xs) => xs
    | _ => []
  | .arr xs => xs
  | _ => []

/-- The document loop of `parseOutput`: skip whitespace, scan one
candidate, `JSON.parse` it; on success collect its findings and resume
after the candidate, on failure resume one character past the candidate
(the `catch { idx++; }` fires after `idx` has already advanced to the
candidate end). -/
def parseLoop : Nat → Str → List Json
  | 0, _ => []
  | fuel+1, s =>
    let s1 := s.dropWhile isJsWs
    match s1 with
    | [] => []
    | _ =>
      let n := match scanStop s1 0 false false with
               | some n => n
               | none => s1.length
      match jparse (s1.take n) with
      | some doc => extractFindings doc ++ parseLoop fuel (s1.drop n)
      | none => parseLoop fuel (s1.drop (n + 1))

/-- `KingfisherScanner.parseOutput`. -/
def parseOutput (stdout : Str) : List Json :=
  let s := jsTrim stdout
  parseLoop (s.length + 1) s

/-! ### Lemmas about the candidate scan and the document loop -/

/-- A string whose first character exists and is not `\s`-whitespace. -/
def startsNonWs (s : Str) : Bool :=
  match s with
  | [] => false
  | c :: _ => !isJsWs c

/-- A self-contained document in the sense of `parseOutput`: it starts
at a non-whitespace character, the candidate scan consumes exactly the
whole string (the depth returns to zero at its final character), and
`JSON.parse` accepts it with value `j`. -/
def ValidDoc (s : Str) (j : Json) : Prop :=
  startsNonWs s = true ∧ scanStop s 0 false false = some s.length ∧
    jparse s = some j

/-- A brace/bracket-balanced fragment that `JSON.parse` rejects: the
candidate scan isolates exactly the fragment, but parsing it fails. -/
def BalancedBadDoc (s : Str) : Prop :=
  startsNonWs s = true ∧ scanStop s 0 false false = some s.length ∧
    jparse s = none

theorem scanStop_append {s : Str} {d : Int} {i e : Bool} {n : Nat}
    (h : scanStop s d i e = some n) (t : Str) :
    scanStop (s ++ t) d i e = some n := by
  induction s generalizing d i e n with
  | nil => simp [scanStop] at h
  | cons c rest ih =>
    simp only [scanStop, List.cons_append] at h ⊢
    split_ifs at h ⊢ with h1 h2 h3 h4 h5 h6 <;>
      first
      | (exact h)
      | (rcases Option.map_eq_some'.mp h with ⟨m, hm, rfl⟩
         exact Option.map_eq_some'.mpr ⟨m, ih hm, rfl⟩)

theorem scanStop_pos {s : Str} {d : Int} {i e : Bool} {n : Nat}
    (h : scanStop s d i e = some n) : 1 ≤ n := by
  induction s generalizing d i e n with
  | nil => simp [scanStop] at h
  | cons c rest ih =>
    simp only [scanStop] at h
    split_ifs at h <;>
      first
      | (exact (Option.some_injective _ h.symm) ▸ Nat.le_refl 1)
      | (rcases Option.map_eq_some'.mp h with ⟨m, hm, rfl⟩; omega)

/-- A string fully consumed by the candidate scan ends at a
non-whitespace character (the closing brace/bracket that drove the
depth back to zero). -/
theorem scanStop_full_last {s : Str} {d : Int} {i e : Bool}
    (h : scanStop s d i e = some s.length) :
    ∃ t c, s = t ++ [c] ∧ isJsWs c = false := by
  induction s generalizing d i e with
  | nil => simp [scanStop] at h
  | cons a rest ih =>
    simp only [scanStop, List.length_cons] at h
    split_ifs at h with h1 h2 h3 h4 h5 h6
    · rcases Option.map_eq_some'.mp h with ⟨m, hm, hmeq⟩
      have : m = rest.length := by omega
      rcases ih (this ▸ hm) with ⟨t, c, rfl, hc⟩
      exact ⟨a :: t, c, rfl, hc⟩
    · rcases Option.map_eq_some'.mp h with ⟨m, hm, hmeq⟩
      have : m = rest.length := by omega
      rcases ih (this ▸ hm) with ⟨t, c, rfl, hc⟩
      exact ⟨a :: t, c, rfl, hc⟩
    · rcases Option.map_eq_some'.mp h with ⟨m, hm, hmeq⟩
      have : m = rest.length := by omega
      rcases ih (this ▸ hm) with ⟨t, c, rfl, hc⟩
      exact ⟨a :: t, c, rfl, hc⟩
    · rcases Option.map_eq_some'.mp h with ⟨m, hm, hmeq⟩
      have : m = rest.length := by omega
      rcases ih (this ▸ hm) with ⟨t, c, rfl, hc⟩
      exact ⟨a :: t, c, rfl, hc⟩
    · injection h with h
      have hrest : rest = [] := by
        cases rest with
        | nil => rfl
        | cons x xs => simp only [List.length_cons] at h; omega
      subst hrest
      refine ⟨[], a, rfl, ?_⟩
      have hb := h5
      simp only [Bool.and_eq_true, Bool.or_eq_true, decide_eq_true_eq] at hb
      rcases hb.2 with rfl | rfl <;> decide
    · rcases Option.map_eq_some'.mp h with ⟨m, hm, hmeq⟩
      have : m = rest.length := by omega
      rcases ih (this ▸ hm) with ⟨t, c, rfl, hc⟩
      exact ⟨a :: t, c, rfl, hc⟩
    · rcases Option.map_eq_some'.mp h with ⟨m, hm, hmeq⟩
      have : m = rest.length := by omega
      rcases ih (this ▸ hm) with ⟨t, c, rfl, hc⟩
      exact ⟨a :: t, c, rfl, hc⟩

theorem jsTrim_eq_self {s : Str} (h1 : startsNonWs s = true)
    (h2 : ∃ t c, s = t ++ [c] ∧ isJsWs c = false) : jsTrim s = s := by
  rcases h2 with ⟨t, c, rfl, hc⟩
  have hfront : (t ++ [c]).dropWhile isJsWs = t ++ [c] := by
    cases t with
    | nil =>
      simp only [List.nil_append, List.dropWhile_cons, hc]
      simp
    | cons a t2 =>
      have ha : isJsWs a = false := by
        simpa [startsNonWs] using h1
      simp [List.dropWhile_cons, ha]
  unfold jsTrim
  rw [hfront]
  rw [List.reverse_append]
  simp only [List.reverse_cons, List.reverse_nil, List.nil_append,
    List.singleton_append, List.dropWhile_cons, hc]
  simp

theorem parseLoop_nil (fuel : Nat) : parseLoop fuel [] = [] := by
  cases fuel <;> simp [parseLoop]

theorem length_dropWhile_le (p : Char → Bool) (s : Str) :
    (s.dropWhile p).length ≤ s.length := by
  induction s with
  | nil => simp
  | cons c rest ih =>
    by_cases h : p c
    · simp only [List.dropWhile_cons, h, if_true]
      exact Nat.le_succ_of_le ih
    · simp [List.dropWhile_cons, h]

/-- The result of `parseLoop` is independent of the fuel once the fuel
exceeds the input length (every iteration consumes at least one
character). -/
theorem parseLoop_mono :
    ∀ (L : Nat) (s : Str), s.length ≤ L → ∀ f g : Nat,
      s.length < f → s.length < g → parseLoop f s = parseLoop g s := by
  intro L
  induction L with
  | zero =>
    intro s hs f g _ _
    have : s = [] := List.length_eq_zero.mp (Nat.le_zero.mp hs)
    subst this
    rw [parseLoop_nil, parseLoop_nil]
  | succ L ih =>
    intro s hs f g hf hg
    rcases f with _ | f1
    · omega
    rcases g with _ | g1
    · omega
    simp only [parseLoop]
    rcases hdw : s.dropWhile isJsWs with _ | ⟨c, rest⟩
    · rfl
    · have hlen1 : (s.dropWhile isJsWs).length ≤ s.length :=
        length_dropWhile_le _ _
      rw [hdw] at hlen1
      have hspos : 1 ≤ s.length := by simp at hlen1; omega
      have key : ∀ n : Nat, 1 ≤ n →
          parseLoop f1 ((c :: rest).drop n) = parseLoop g1 ((c :: rest).drop n) := by
        intro n hn
        have hdlen : ((c :: rest).drop n).length = (c :: rest).length - n :=
          List.length_drop n (c :: rest)
        simp only [List.length_cons] at hdlen hlen1
        refine ih _ ?_ f1 g1 ?_ ?_ <;> omega
      rcases hscan : scanStop (c :: rest) 0 false false with _ | n
      · rcases hp : jparse ((c :: rest).take (c :: rest).length) with _ | doc
        · exact key _ (by simp)
        · rw [key _ (by simp [List.length_cons])]
      · have hn1 : 1 ≤ n := scanStop_pos hscan
        rcases hp : jparse ((c :: rest).take n) with _ | doc
        · exact key _ (by omega)
        · rw [key _ hn1]

theorem dropWhile_append_all {p : Char → Bool} {w : Str} (t : Str)
    (hw : ∀ c ∈ w, p c = true) :
    (w ++ t).dropWhile p = t.dropWhile p := by
  induction w with
  | nil => rfl
  | cons c rest ih =>
    simp only [List.cons_append, List.dropWhile_cons,
      hw c (by simp), if_true]
    exact ih (fun c hc => hw c (by simp [hc]))

/-- One iteration of the document loop on whitespace, a complete valid
document, and arbitrary following text: the document's findings are
contributed and the loop resumes right after the document. -/
theorem parseLoop_step_doc (w d rest : Str) (j : Json) (m : Nat)
    (hw : ∀ c ∈ w, isJsWs c = true)
    (h1 : startsNonWs d = true)
    (h2 : scanStop d 0 false false = some d.length)
    (h3 : jparse d = some j) :
    parseLoop (m + 1) (w ++ d ++ rest)
      = extractFindings j ++ parseLoop m rest := by
  rcases d with _ | ⟨c, dt⟩
  · simp [startsNonWs] at h1
  have hc : isJsWs c = false := by
    simpa [startsNonWs] using h1
  have hdw : ((w ++ (c :: dt)) ++ rest).dropWhile isJsWs
      = c :: (dt ++ rest) := by
    rw [List.append_assoc, dropWhile_append_all _ hw]
    simp [List.dropWhile_cons, hc]
  have hscan : scanStop (c :: (dt ++ rest)) 0 false false
      = some (c :: dt).length := by
    have := scanStop_append h2 rest
    simpa using this
  simp only [parseLoop, hdw, hscan]
  have htake : (c :: (dt ++ rest)).take (c :: dt).length = c :: dt := by
    have := List.take_left (c :: dt) rest
    simpa using this
  have hdrop : (c :: (dt ++ rest)).drop (c :: dt).length = rest := by
    have := List.drop_left (c :: dt) rest
    simpa using this
  rw [htake, h3, hdrop]

/-- One iteration of the document loop on whitespace, a balanced but
unparsable fragment, and arbitrary following text: the candidate is
exactly the fragment, parsing fails, and the loop resumes one character
past it. -/
theorem parseLoop_step_bad (w f : Str) (x : Char) (rest : Str) (m : Nat)
    (hw : ∀ c ∈ w, isJsWs c = true)
    (h1 : startsNonWs f = true)
    (h2 : scanStop f 0 false false = some f.length)
    (h3 : jparse f = none) :
    parseLoop (m + 1) (w ++ f ++ x :: rest) = parseLoop m rest := by
  rcases f with _ | ⟨c, ft⟩
  · simp [startsNonWs] at h1
  have hc : isJsWs c = false := by
    simpa [startsNonWs] using h1
  have hdw : ((w ++ (c :: ft)) ++ x :: rest).dropWhile isJsWs
      = c :: (ft ++ x :: rest) := by
    rw [List.append_assoc, dropWhile_append_all _ hw]
    simp [List.dropWhile_cons, hc]
  have hscan : scanStop (c :: (ft ++ x :: rest)) 0 false false
      = some (c :: ft).length := by
    have := scanStop_append h2 (x :: rest)
    simpa using this
  simp only [parseLoop, hdw, hscan]
  have htake : (c :: (ft ++ x :: rest)).take (c :: ft).length = c :: ft := by
    have := List.take_left (c :: ft) (x :: rest)
    simpa using this
  have hdrop : (c :: (ft ++ x :: rest)).drop ((c :: ft).length + 1)
      = rest := by
    have heq : (c :: (ft ++ x :: rest)) = ((c :: ft) ++ [x]) ++ rest := by
      simp
    have hlen : ((c :: ft) ++ [x]).length = (c :: ft).length + 1 := by
      simp
    rw [heq, ← hlen, List.drop_left]
  rw [htake, h3, hdrop]

/-- **C3 (amended)** — given two valid self-contained documents
separated by a newline, `parseOutput` yields the findings of both,
whichever of the two shapes (bare array or object with a `findings`
field) each has; and a balanced malformed fragment standing between the
two documents is dropped alone, both documents still contributing. -/
theorem parseOutput_two_docs :
    (∀ (d1 d2 : Str) (j1 j2 : Json), ValidDoc d1 j1 → ValidDoc d2 j2 →
      parseOutput (d1 ++ '\n' :: d2)
        = extractFindings j1 ++ extractFindings j2) ∧
    (∀ (d1 f d2 : Str) (j1 j2 : Json),
      ValidDoc d1 j1 → BalancedBadDoc f → ValidDoc d2 j2 →
      parseOutput (d1 ++ '\n' :: (f ++ '\n' :: d2))
        = extractFindings j1 ++ extractFindings j2) := by
  have hdoc_last : ∀ {s : Str} {j : Json}, ValidDoc s j →
      ∃ t c, s = t ++ [c] ∧ isJsWs c = false := by
    intro s j hs
    exact scanStop_full_last hs.2.1
  have hne : ∀ {s : Str} {j : Json}, ValidDoc s j → s ≠ [] := by
    intro s j hs h
    rw [h] at hs
    simp [ValidDoc, startsNonWs] at hs
  have hfinal : ∀ (d : Str) (j : Json), ValidDoc d j → ∀ m : Nat,
      parseLoop (m + 1) ('\n' :: d) = extractFindings j := by
    intro d j hd m
    have := parseLoop_step_doc ['\n'] d [] j m (by decide) hd.1 hd.2.1 hd.2.2
    simpa [parseLoop_nil] using this
  constructor
  · intro d1 d2 j1 j2 h1 h2
    have hs1 : startsNonWs (d1 ++ '\n' :: d2) = true := by
      rcases d1 with _ | ⟨c, t⟩
      · exact absurd rfl (hne h1)
      · simpa [startsNonWs] using h1.1
    have hslast : ∃ t c, d1 ++ '\n' :: d2 = t ++ [c] ∧ isJsWs c = false := by
      rcases hdoc_last h2 with ⟨t, c, hd2, hc⟩
      exact ⟨d1 ++ '\n' :: t, c, by rw [hd2]; simp, hc⟩
    have hd1ne := hne h1
    have hlen1 : 1 ≤ d1.length := by
      rcases d1 with _ | _
      · exact absurd rfl hd1ne
      · simp
    unfold parseOutput
    rw [jsTrim_eq_self hs1 hslast]
    have step1 : parseLoop ((d1 ++ '\n' :: d2).length + 1) (d1 ++ '\n' :: d2)
        = extractFindings j1
          ++ parseLoop ((d1 ++ '\n' :: d2).length) ('\n' :: d2) := by
      have := parseLoop_step_doc [] d1 ('\n' :: d2) j1
        ((d1 ++ '\n' :: d2).length) (by simp) h1.1 h1.2.1 h1.2.2
      simpa using this
    rw [step1]
    have hmono : parseLoop ((d1 ++ '\n' :: d2).length) ('\n' :: d2)
        = parseLoop (('\n' :: d2).length + 1) ('\n' :: d2) := by
      refine parseLoop_mono ('\n' :: d2).length ('\n' :: d2) (Nat.le_refl _)
        _ _ ?_ ?_ <;>
        simp only [List.length_append, List.length_cons] <;> omega
    rw [hmono, hfinal d2 j2 h2]
  · intro d1 f d2 j1 j2 h1 hf h2
    have hs1 : startsNonWs (d1 ++ '\n' :: (f ++ '\n' :: d2)) = true := by
      rcases d1 with _ | ⟨c, t⟩
      · exact absurd rfl (hne h1)
      · simpa [startsNonWs] using h1.1
    have hslast : ∃ t c,
        d1 ++ '\n' :: (f ++ '\n' :: d2) = t ++ [c] ∧ isJsWs c = false := by
      rcases hdoc_last h2 with ⟨t, c, hd2, hc⟩
      exact ⟨d1 ++ '\n' :: (f ++ '\n' :: t), c, by rw [hd2]; simp, hc⟩
    have hd1ne := hne h1
    have hlen1 : 1 ≤ d1.length := by
      rcases d1 with _ | _
      · exact absurd rfl hd1ne
      · simp
    have hfne : f ≠ [] := by
      intro h
      rw [h] at hf
      simp [BalancedBadDoc, startsNonWs] at hf
    have hflen : 1 ≤ f.length := by
      rcases f with _ | _
      · exact absurd rfl hfne
      · simp
    unfold parseOutput
    rw [jsTrim_eq_self hs1 hslast]
    have step1 : parseLoop ((d1 ++ '\n' :: (f ++ '\n' :: d2)).length + 1)
          (d1 ++ '\n' :: (f ++ '\n' :: d2))
        = extractFindings j1
          ++ parseLoop ((d1 ++ '\n' :: (f ++ '\n' :: d2)).length)
              ('\n' :: (f ++ '\n' :: d2)) := by
      have := parseLoop_step_doc [] d1 ('\n' :: (f ++ '\n' :: d2)) j1
        ((d1 ++ '\n' :: (f ++ '\n' :: d2)).length) (by simp) h1.1 h1.2.1
        h1.2.2
      simpa using this
    rw [step1]
    have hmono : parseLoop ((d1 ++ '\n' :: (f ++ '\n' :: d2)).length)
          ('\n' :: (f ++ '\n' :: d2))
        = parseLoop (('\n' :: (f ++ '\n' :: d2)).length + 1)
            ('\n' :: (f ++ '\n' :: d2)) := by
      refine parseLoop_mono ('\n' :: (f ++ '\n' :: d2)).length
        ('\n' :: (f ++ '\n' :: d2)) (Nat.le_refl _) _ _ ?_ ?_ <;>
        simp only [List.length_append, List.length_cons] <;> omega
    rw [hmono]
    have step2 : parseLoop (('\n' :: (f ++ '\n' :: d2)).length + 1)
          ('\n' :: (f ++ '\n' :: d2))
        = parseLoop (('\n' :: (f ++ '\n' :: d2)).length) d2 := by
      have := parseLoop_step_bad ['\n'] f '\n' d2
        (('\n' :: (f ++ '\n' :: d2)).length) (by decide) hf.1 hf.2.1 hf.2.2
      simpa using this
    rw [step2]
    have hmono2 : parseLoop (('\n' :: (f ++ '\n' :: d2)).length) d2
        = parseLoop (d2.length + 1) d2 := by
      refine parseLoop_mono d2.length d2 (Nat.le_refl _) _ _ ?_ ?_
      · simp only [List.length_append, List.length_cons]
        omega
      · omega
    rw [hmono2]
    have hlast : parseLoop (d2.length + 1) d2 = extractFindings j2 := by
      have := parseLoop_step_doc [] d2 [] j2 d2.length (by simp)
        h2.1 h2.2.1 h2.2.2
      simpa [parseLoop_nil] using this
    rw [hlast]

/-- Witness for C3 (amended): a `findings`-wrapped object document and a
bare-array document separated by a newline both contribute, and the
balanced malformed fragment `{oops}` standing between them is dropped
alone. -/
theorem parseOutput_two_docs_witness :
    parseOutput (str "\x7b\"findings\":[true]\x7d" ++ '\n' :: str "[false]")
      = [Json.bool true, Json.bool false] ∧
    parseOutput (str "\x7b\"findings\":[true]\x7d"
        ++ '\n' :: (str "\x7boops\x7d" ++ '\n' :: str "[false]"))
      = [Json.bool true, Json.bool false] := by
  constructor
  · have := parseOutput_two_docs.1 (str "\x7b\"findings\":[true]\x7d")
      (str "[false]")
      (Json.obj [(str "findings", Json.arr [Json.bool true])])
      (Json.arr [Json.bool false])
      ⟨by decide, by decide, rfl⟩ ⟨by decide, by decide, rfl⟩
    exact this
  · have := parseOutput_two_docs.2 (str "\x7b\"findings\":[true]\x7d")
      (str "\x7boops\x7d") (str "[false]")
      (Json.obj [(str "findings", Json.arr [Json.bool true])])
      (Json.arr [Json.bool false])
      ⟨by decide, by decide, rfl⟩ ⟨by decide, by decide, rfl⟩
      ⟨by decide, by decide, rfl⟩
    exact this

/-- **C3 (counterexample)** — with the malformed fragment `oops`
(which contains no opening brace/bracket) standing between two valid
documents, the candidate scan absorbs the second document into the
failed candidate and its findings are lost: `parseOutput` keeps only the
first document's findings, not both, refuting the claim as stated. -/
theorem parseOutput_malformed_counterexample :
    jparse (str "[1]") = some (Json.arr [Json.num (str "1")]) ∧
    jparse (str "[2]") = some (Json.arr [Json.num (str "2")]) ∧
    jparse (str "oops") = none ∧
    parseOutput (str "[1]\noops\n[2]") = [Json.num (str "1")] ∧
    parseOutput (str "[1]\noops\n[2]")
      ≠ extractFindings (Json.arr [Json.num (str "1")])
        ++ extractFindings (Json.arr [Json.num (str "2")]) := by
  refine ⟨rfl, rfl, rfl, rfl, ?_⟩
  intro h
  have hlen := congrArg List.length h
  have h1 : (parseOutput (str "[1]\noops\n[2]")).length = 1 := by
    decide
  rw [h1] at hlen
  simp [extractFindings] at hlen

/-! ## `KingfisherScanner.parsePrettyOutput` (scanner.ts:980-1070)

The rule-header regex `/^\s*[🔓🔒]\s+(.+?)\s+=>\s+\[(.+?)\]/` is compiled
without the `u` flag, so it operates on UTF-16 code units: the character
class `[🔓🔒]` contains the three surrogate units `D83D`, `DD13`, `DD12`
and can only ever consume a single unit.  That branch is therefore
modelled at the code-unit level; the remaining regexes only involve BMP
characters and are modelled on scalars directly. -/

/-- Whitespace test (`\s`) on a raw code point. -/
def isJsWsCode (u : Nat) : Bool :=
  u = 0x9 || u = 0xA || u = 0xB || u = 0xC ||
  u = 0xD || u = 0x20 || u = 0xA0 || u = 0x1680 ||
  (0x2000 ≤ u && u ≤ 0x200A) ||
  u = 0x2028 || u = 0x2029 || u = 0x202F ||
  u = 0x205F || u = 0x3000 || u = 0xFEFF

/-- The UTF-16 encoding of one scalar value. -/
def utf16Units (c : Char) : List Nat :=
  if c.toNat < 0x10000 then [c.toNat]
  else [0xD800 + (c.toNat - 0x10000) / 0x400,
        0xDC00 + (c.toNat - 0x10000) % 0x400]

/-- A JavaScript string as its UTF-16 code-unit sequence. -/
def toUnits (s : Str) : List Nat := (s.map utf16Units).flatten

/-- Best-effort inverse used for the captures of the unit-level
matcher; a lone surrogate is not a scalar value and falls to the
`Char.ofNat` default.  (The unit-level rule matcher never succeeds on a
well-formed string, so this is never exercised by the pipeline.) -/
def unitsToStr (us : List Nat) : Str := us.map Char.ofNat

/-- The units of the no-`u`-flag character class `[🔓🔒]`:
`\uD83D`, `\uDD13` (from 🔓) and `\uD83D`, `\uDD12` (from 🔒). -/
def emojiClassUnit (u : Nat) : Bool :=
  u = 0xD83D || u = 0xDD13 || u = 0xDD12

/-- `/[🔓🔒]/.test(text)`: some code unit is in the class. -/
def hasEmojiMarker (s : Str) : Bool := (toUnits s).any emojiClassUnit

/-- `/\|Finding\.+:/` tested at one position. -/
def findingMarkAt : Str → Bool
  | '|' :: 'F' :: 'i' :: 'n' :: 'd' :: 'i' :: 'n' :: 'g' :: rest =>
    let dots := rest.takeWhile (fun c => c = '.')
    decide (1 ≤ dots.length) &&
      (match rest.drop dots.length with
       | ':' :: _ => true
       | _ => false)
  | _ => false

/-- `/\|Finding\.+:/.test(text)` (unanchored search). -/
def hasFindingMark (s : Str) : Bool := s.tails.any findingMarkAt

/-- The pretty-format detection of scanBatch (scanner.ts:805). -/
def hasPrettyFormat (s : Str) : Bool := hasEmojiMarker s || hasFindingMark s

/-- Split on `/\r?\n/`: `\n` separates lines, and one `\r` immediately
before it belongs to the separator. -/
def splitLinesAux (acc : Str) : Str → List Str
  | [] => [acc.reverse]
  | '\n' :: rest =>
    (match acc with
     | '\r' :: acc2 => acc2.reverse
     | _ => acc.reverse) :: splitLinesAux [] rest
  | c :: rest => splitLinesAux (c :: acc) rest

def splitLines (s : Str) : List Str := splitLinesAux [] s

/-- `.` of a no-flags regex: any unit except a line terminator. -/
def isDotU (u : Nat) : Bool :=
  !(u = 0xA || u = 0xD || u = 0x2028 || u = 0x2029)

/-- The tail `\s+=>\s+\[(.+?)\]` of the emoji rule regex, at the unit
level; returns the lazily captured rule id: at least one character and
then everything up to the first following `]`. -/
def emojiTail (us : List Nat) : Option (List Nat) :=
  let w1 := us.takeWhile isJsWsCode
  if w1.length = 0 then none
  else
    match us.drop w1.length with
    | 0x3D :: 0x3E :: r2 =>
      let w2 := r2.takeWhile isJsWsCode
      if w2.length = 0 then none
      else
        match r2.drop w2.length with
        | 0x5B :: r3 =>
          match r3 with
          | c0 :: r4 =>
            let pre := r4.takeWhile (fun u => !(u = 0x5D))
            if pre.length < r4.length then
              if (c0 :: pre).all isDotU then some (c0 :: pre) else none
            else none
          | [] => none
        | _ => none
    | _ => none

/-- The lazy group `(.+?)` before the tail: the shortest nonempty
capture after which the tail matches. -/
def lazyNameSearch (acc : List Nat) : List Nat → Option (List Nat × List Nat)
  | [] => none
  | u :: rest =>
    if !isDotU u then none
    else
      match emojiTail rest with
      | some id => some ((u :: acc).reverse, id)
      | none => lazyNameSearch (u :: acc) rest

/-- The greedy-with-backtracking `\s+` right after the character class:
try the longest whitespace run first, then shorter ones (the lazy dot
can consume whitespace). -/
def emojiWs1 (us : List Nat) : Nat → Option (List Nat × List Nat)
  | 0 => none
  | k + 1 =>
    match lazyNameSearch [] (us.drop (k + 1)) with
    | some r => some r
    | none => emojiWs1 us k

/-- `line.match(/^\s*[🔓🔒]\s+(.+?)\s+=>\s+\[(.+?)\]/)`, faithfully at
the UTF-16 level: captures are (rule name, rule id). -/
def ruleMatchEmoji (line : Str) : Option (Str × Str) :=
  let us := toUnits line
  match us.dropWhile isJsWsCode with
  | u :: rest =>
    if emojiClassUnit u then
      (emojiWs1 rest (rest.takeWhile isJsWsCode).length).map
        (fun p => (unitsToStr p.1, unitsToStr p.2))
    else none
  | [] => none

def isAsciiLetter (c : Char) : Bool :=
  ('A' ≤ c && c ≤ 'Z') || ('a' ≤ c && c ≤ 'z')

/-- The class `[A-Z0-9 _().-]` under the `i` flag. -/
def noEmojiBodyChar (c : Char) : Bool :=
  isAsciiLetter c || isDigit c || c = ' ' || c = '_' || c = '(' ||
    c = ')' || c = '.' || c = '-'

/-- The class `[A-Z0-9_.]` under the `i` flag. -/
def noEmojiIdChar (c : Char) : Bool :=
  isAsciiLetter c || isDigit c || c = '_' || c = '.'

/-- The tail `\s+=>\s+\[([A-Z0-9_.]+)\]` of the emoji-less rule regex. -/
def tailNoEmoji (s : Str) : Option Str :=
  let w1 := s.takeWhile isJsWs
  if w1.length = 0 then none
  else
    match s.drop w1.length with
    | '=' :: '>' :: r2 =>
      let w2 := r2.takeWhile isJsWs
      if w2.length = 0 then none
      else
        match r2.drop w2.length with
        | '[' :: r3 =>
          let idc := r3.takeWhile noEmojiIdChar
          if idc.length = 0 then none
          else
            match r3.drop idc.length with
            | ']' :: _ => some idc
            | _ => none
        | _ => none
    | _ => none

/-- Greedy body group `([A-Z][A-Z0-9 _().-]+)`: try the longest body
first (the class contains the space, so the separating `\s+` may force
backtracking). -/
def greedyBody (c0 : Char) (body after : Str) : Nat → Option (Str × Str)
  | 0 => none
  | k + 1 =>
    match tailNoEmoji (body.drop (k + 1) ++ after) with
    | some id => some (c0 :: body.take (k + 1), id)
    | none => greedyBody c0 body after k

/-- `line.match(/^\s*([A-Z][A-Z0-9 _().-]+)\s+=>\s+\[([A-Z0-9_.]+)\]/i)`. -/
def ruleMatchNoEmoji (line : Str) : Option (Str × Str) :=
  match line.dropWhile isJsWs with
  | c :: rest =>
    if isAsciiLetter c then
      let body := rest.takeWhile noEmojiBodyChar
      greedyBody c body (rest.drop body.length) body.length
    else none
  | [] => none

/-- `line.match(/^\s*\|([A-Za-z_]+)\.+:\s*(.*)$/)`: key and raw value
capture (the `$` anchor fails if the line holds a Unicode line
separator the dot cannot cross). -/
def propertyMatch (line : Str) : Option (Str × Str) :=
  match line.dropWhile isJsWs with
  | '|' :: r =>
    let key := r.takeWhile (fun c => isAsciiLetter c || c = '_')
    if key.length = 0 then none
    else
      let r2 := r.drop key.length
      let dots := r2.takeWhile (fun c => c = '.')
      if dots.length = 0 then none
      else
        match r2.drop dots.length with
        | ':' :: r3 =>
          if r3.any (fun c => c.toNat = 0x2028 || c.toNat = 0x2029) then none
          else some (key, r3.dropWhile isJsWs)
        | _ => none
  | _ => none

/-- `line.match(/^\s*\|__([A-Za-z_]+)\.+:\s*(.*)$/)`. -/
def nestedMatch (line : Str) : Option (Str × Str) :=
  match line.dropWhile isJsWs with
  | '|' :: '_' :: '_' :: r =>
    let key := r.takeWhile (fun c => isAsciiLetter c || c = '_')
    if key.length = 0 then none
    else
      let r2 := r.drop key.length
      let dots := r2.takeWhile (fun c => c = '.')
      if dots.length = 0 then none
      else
        match r2.drop dots.length with
        | ':' :: r3 =>
          if r3.any (fun c => c.toNat = 0x2028 || c.toNat = 0x2029) then none
          else some (key, r3.dropWhile isJsWs)
        | _ => none
  | _ => none

structure PrettyValidation where
  status : Str
  response : Str
deriving DecidableEq

/-- The record built by the pretty-output state machine (fields the
TypeScript code assigns on the dynamic `currentFinding` object). -/
structure PrettyRec where
  ruleId : Str
  ruleName : Str
  snippet : Str
  path : Str
  confidence : Str
  fingerprint : Option Str
  validation : Option PrettyValidation
deriving DecidableEq

def leadsWith : Str → Str → Bool
  | [], _ => true
  | _ :: _, [] => false
  | a :: as, b :: bs => a = b && leadsWith as bs

/-- `hay.includes(needle)`. -/
def containsSub (hay needle : Str) : Bool :=
  hay.tails.any (fun t => leadsWith needle t)

/-- One line of the pretty-output state machine: rule headers flush the
current record (if complete) and start a new one; the emoji-less header
only starts a record when none is in progress; property lines assign
scalar fields, and a property line whose key is unrecognized (including
every `|__…` line, whose key also matches `[A-Za-z_]+`) is consumed
without effect, which makes the nested-response branch unreachable. -/
def prettyStep (st : Option PrettyRec × List PrettyRec) (line : Str) :
    Option PrettyRec × List PrettyRec :=
  let (cur, out) := st
  match ruleMatchEmoji line with
  | some (name, id) =>
    let out2 :=
      match cur with
      | some c => if c.snippet ≠ [] && c.path ≠ [] then out ++ [c] else out
      | none => out
    (some { ruleId := jsTrim id, ruleName := jsTrim name, snippet := [],
            path := [], confidence := str "medium", fingerprint := none,
            validation := none }, out2)
  | none =>
    match ruleMatchNoEmoji line, cur with
    | some (name, id), none =>
      (some { ruleId := jsTrim id, ruleName := jsTrim name, snippet := [],
              path := [], confidence := str "medium", fingerprint := none,
              validation := none }, out)
    | _, _ =>
      match cur with
      | none => (none, out)
      | some c =>
        match propertyMatch line with
        | some (key, value) =>
          let k := jsToLower (jsTrim key)
          let v := jsTrim value
          if k = str "finding" then (some { c with snippet := v }, out)
          else if k = str "path" then (some { c with path := v }, out)
          else if k = str "confidence" then
            (some { c with confidence := jsToLower v }, out)
          else if k = str "fingerprint" then
            (some { c with fingerprint := some v }, out)
          else if k = str "validation" then
            (some { c with validation := some {
              status :=
                if containsSub (jsToLower v) (str "active") ||
                    containsSub (jsToLower v) (str "valid") then str "valid"
                else str "invalid",
              response := str "" } }, out)
          else (some c, out)
        | none =>
          match nestedMatch line with
          | some (key, value) =>
            let k := jsToLower (jsTrim key)
            let v := jsTrim value
            if k = str "response" then
              match c.validation with
              | some vd =>
                (some { c with validation := some { vd with response := v } },
                  out)
              | none => (some c, out)
            else (some c, out)
          | none => (some c, out)

/-- `KingfisherScanner.parsePrettyOutput`. -/
def parsePrettyOutput (text : Str) : List PrettyRec :=
  let folded := (splitLines text).foldl prettyStep (none, [])
  match folded.1 with
  | some c =>
    if c.snippet ≠ [] && c.path ≠ [] then folded.2 ++ [c] else folded.2
  | none => folded.2

/-- The dynamic object the pretty state machine builds, as a JSON value
(field order: initializer fields first, then first-assignment order of
the optional ones). -/
def prettyToJson (r : PrettyRec) : Json :=
  Json.obj [
    (str "rule", Json.obj [(str "id", Json.str r.ruleId),
                           (str "name", Json.str r.ruleName)]),
    (str "finding", Json.obj (
      [(str "snippet", Json.str r.snippet),
       (str "path", Json.str r.path),
       (str "confidence", Json.str r.confidence)]
      ++ (match r.fingerprint with
          | some f => [(str "fingerprint", Json.str f)]
          | none => [])
      ++ (match r.validation with
          | some v => [(str "validation",
              Json.obj [(str "status", Json.str v.status),
                        (str "response", Json.str v.response)])]
          | none => [])))]

/-- The fallback selection of scanBatch (scanner.ts:800-813): structured
findings first; if none and the text looks pretty-formatted, the
fallback result replaces them when nonempty. -/
def collectRawFindings (s : Str) : List Json :=
  let raw := parseOutput s
  if raw.length = 0 && hasPrettyFormat s then
    let fb := (parsePrettyOutput s).map prettyToJson
    if 0 < fb.length then fb else raw
  else raw

/-- **C8 (code bug)** — on stdout with zero structured findings, a
recognizable pretty marker and one complete rule block whose header
carries the iconographic bullet (the very shape the code comments
document), the fallback is invoked but extracts nothing: compiled
without the `u` flag, the class `[🔓🔒]` consumes a lone UTF-16
surrogate, after which `\s+` can never match, so emoji rule headers are
never recognized.  The same block without the emoji yields exactly one
raw finding with non-empty snippet and path, and a block missing its
path line is discarded at flush time — the claimed behavior, reachable
only for emoji-less headers. -/
theorem parsePrettyOutput_emoji_header_bug :
    parseOutput
      (str "🔓 JWT TOKEN => [KF.JWT.1]\n |Finding....: tok123\n |Path....: /tmp/x.txt")
      = [] ∧
    hasPrettyFormat
      (str "🔓 JWT TOKEN => [KF.JWT.1]\n |Finding....: tok123\n |Path....: /tmp/x.txt")
      = true ∧
    parsePrettyOutput
      (str "🔓 JWT TOKEN => [KF.JWT.1]\n |Finding....: tok123\n |Path....: /tmp/x.txt")
      = [] ∧
    collectRawFindings
      (str "🔓 JWT TOKEN => [KF.JWT.1]\n |Finding....: tok123\n |Path....: /tmp/x.txt")
      = [] ∧
    parsePrettyOutput
      (str "JWT TOKEN => [KF.JWT.1]\n |Finding....: tok123\n |Path....: /tmp/x.txt")
      = [{ ruleId := str "KF.JWT.1", ruleName := str "JWT TOKEN",
           snippet := str "tok123", path := str "/tmp/x.txt",
           confidence := str "medium", fingerprint := none,
           validation := none }] ∧
    (str "tok123" ≠ ([] : Str) ∧ str "/tmp/x.txt" ≠ ([] : Str)) ∧
    parsePrettyOutput (str "JWT TOKEN => [KF.JWT.1]\n |Finding....: tok123")
      = [] := by
  exact ⟨rfl, by decide, by decide, rfl, by decide, by decide, by decide⟩

/-! ## The scan pipeline (scanner.ts:675-905) and its environment

External effects are an explicit oracle: the transaction store lookup,
whether a temp-file write throws, the subprocess outcome (`exec` always
resolves, a timeout surfaces as exit code 124 with augmented stderr, so
it carries no separate failure mode), and whether the `--output` file
could be read back.  `Date.now()` is a single per-batch value `time`;
elapsed durations are a single value `dur`; the random finding id is the
value `uuid`.  File-system activity is recorded as an event trace. -/

structure RecordData where
  rawRequest : Str
  rawResponse : Option Str
  url : Str
  method : Str

structure ExecResult where
  stdout : Str
  stderr : Str
  exitCode : Int

structure Env where
  db : Str → Option RecordData
  writeFails : Str → Bool
  writeErrMsg : Str
  time : Nat
  dur : Nat
  exec : ExecResult
  outputFileContent : Option Str
  binary : Option Str
  uuid : Str

/-- The normalized `Finding` built by `transformFinding`
(scanner.ts:878-905).  Fields read off the dynamic raw finding are
`Option Json` (`none` = the JavaScript `undefined`). -/
structure Finding where
  id : Str
  requestId : Str
  url : Str
  method : Str
  timestamp : Nat
  ruleId : Option Json
  ruleName : Option Json
  confidence : Confidence
  snippet : Option Json
  rawSnippet : Option Json
  path : Option Json
  fingerprint : Option Json
  validation : Option Json

structure ScanResult where
  requestId : Str
  findings : List Finding
  error : Option Str
  duration : Nat
  rawOutput : Option Str

inductive FsEvent where
  | write (path : Str)
  | del (path : Str)
  | execPoint
deriving DecidableEq

/-- Decimal digits of a natural number. -/
def natDigitsAux : Nat → Nat → Str
  | 0, _ => []
  | _ + 1, 0 => []
  | f + 1, n => natDigitsAux f (n / 10) ++ [Char.ofNat (n % 10 + 48)]

def natDigits (n : Nat) : Str :=
  if n = 0 then ['0'] else natDigitsAux (n + 1) n

/-- `writeTempFile` (scanner.ts:1137): the artifact path
`<tmpdir>/kingfisher-<id>-<Date.now()>.txt`. -/
def tempPath (t : Nat) (id : Str) : Str :=
  str "/tmp/kingfisher-" ++ id ++ '-' :: natDigits t ++ str ".txt"

/-- The `--output` file path (scanner.ts:769). -/
def outPath (env : Env) : Str :=
  str "/tmp/kingfisher-output-" ++ natDigits env.time ++ str ".txt"

/-- Per-record outcome of the temp-file phase (scanner.ts:727-744):
the record is absent from the store, or a temp file was written, or the
write threw (rejecting the whole `Promise.all`). -/
inductive TempOutcome where
  | notFound
  | written (path : Str)
  | failed

def tempOutcome (env : Env) (id : Str) : TempOutcome :=
  match env.db id with
  | none => .notFound
  | some _ =>
    if env.writeFails id then .failed else .written (tempPath env.time id)

/-- Write events of the temp-file phase: the parallel writes have all
been started when `Promise.all` settles, so every non-throwing write
leaves a file even when another write rejects the batch. -/
def tempEvents (env : Env) (ids : List Str) : List FsEvent :=
  ids.filterMap (fun id =>
    match tempOutcome env id with
    | .written p => some (FsEvent.write p)
    | _ => none)

def anyWriteFails (env : Env) (ids : List Str) : Bool :=
  ids.any (fun id =>
    match tempOutcome env id with
    | .failed => true
    | _ => false)

/-- The per-record error results pushed before the subprocess phase
(scanner.ts:748-759); the only reachable error here is the
`"Request not found"` lookup failure. -/
def notFoundResults (env : Env) (ids : List Str) : List ScanResult :=
  ids.filterMap (fun id =>
    match tempOutcome env id with
    | .notFound =>
      some { requestId := id, findings := [],
             error := some (str "Request not found"), duration := 0,
             rawOutput := none }
    | _ => none)

/-- `Map.set`: replace in place or append. -/
def mapSet (m : List (Str × Str)) (k v : Str) : List (Str × Str) :=
  if m.any (fun p => p.1 = k) then
    m.map (fun p => if p.1 = k then (k, v) else p)
  else m ++ [(k, v)]

/-- The `tempFiles` map (path → requestId), in insertion order. -/
def buildTempMap (env : Env) (ids : List Str) : List (Str × Str) :=
  ids.foldl (fun m id =>
    match tempOutcome env id with
    | .written p => mapSet m p id
    | _ => m) []

/-- Property access `v[key]`, `Except` on the `TypeError` of reading a
property of `null`; access on other primitives boxes and yields
`undefined` for the keys this pipeline reads. -/
def jsProp (v : Json) (key : Str) : Except Str (Option Json) :=
  match v with
  | .null => .error (str "TypeError")
  | .obj fields => .ok (lookupLast fields key)
  | _ => .ok none

/-- Property access on a possibly-`undefined` value: `undefined[key]`
throws. -/
def jsPropU (v : Option Json) (key : Str) : Except Str (Option Json) :=
  match v with
  | none => .error (str "TypeError")
  | some j => jsProp j key

/-- `raw.finding.path` of the grouping loop (scanner.ts:820-825):
throws on structurally alien findings, otherwise yields the path value
(`none` = `undefined`). -/
def getPathKey (raw : Json) : Except Str (Option Json) := do
  let f ← jsProp raw (str "finding")
  jsPropU f (str "path")

/-- SameValueZero equality of `Map` keys.  Parsed objects and arrays
are always fresh JavaScript objects, so two of them are never the same
key; primitive keys compare by value (number lexemes are compared
literally — numeric keys are never consulted downstream). -/
def pathKeyEq (a b : Option Json) : Bool :=
  match a, b with
  | none, none => true
  | some .null, some .null => true
  | some (.bool x), some (.bool y) => x = y
  | some (.num x), some (.num y) => x = y
  | some (.str x), some (.str y) => x = y
  | _, _ => false

def groupInsert (groups : List (Option Json × List Json)) (k : Option Json)
    (raw : Json) : List (Option Json × List Json) :=
  if groups.any (fun g => pathKeyEq g.1 k) then
    groups.map (fun g => if pathKeyEq g.1 k then (g.1, g.2 ++ [raw]) else g)
  else groups ++ [(k, [raw])]

/-- The `findingsByPath` grouping loop. -/
def groupByPath (raws : List Json) :
    Except Str (List (Option Json × List Json)) :=
  raws.foldlM (fun groups raw => do
    let k ← getPathKey raw
    pure (groupInsert groups k raw)) []

/-- `findingsByPath.get(tempPath) || []`. -/
def groupsGet (groups : List (Option Json × List Json)) (path : Str) :
    List Json :=
  match groups.find? (fun g => pathKeyEq g.1 (some (Json.str path))) with
  | some g => g.2
  | none => []

/-- `value?.toLowerCase() || "medium"` at the dynamic level: `null` and
`undefined` short-circuit to `undefined`; calling `toLowerCase` on a
non-string throws. -/
def normalizeConfidenceJ (v : Option Json) : Except Str Confidence :=
  match v with
  | none => .ok (normalizeConfidence none)
  | some .null => .ok (normalizeConfidence none)
  | some (.str s) => .ok (normalizeConfidence (some s))
  | some _ => .error (str "TypeError")

/-- Is a JSON number lexeme the (falsy) value zero: no nonzero digit in
the mantissa. -/
def numIsZero (lex : Str) : Bool :=
  (lex.takeWhile (fun c => !(c = 'e' || c = 'E'))).all
    (fun c => !(isDigit c && !(c = '0')))

/-- Element rendering of `Array.prototype.join` (used when `+` coerces
an array slice to a string); number lexemes are kept literally. -/
def jsArrayItemStr : Nat → Json → Str
  | _, .null => []
  | _, .bool true => str "true"
  | _, .bool false => str "false"
  | _, .num l => l
  | _, .str s => s
  | 0, _ => []
  | f + 1, .arr xs => List.intercalate [','] (xs.map (jsArrayItemStr f))
  | _ + 1, .obj _ => str "[object Object]"

/-- `maskSecret` applied to the dynamic `raw.finding.snippet`: falsy
values (`undefined`, `null`, `false`, `0`, `""`) are returned as-is;
truthy non-strings lack `length` (the `<= 8` NaN-comparison is false)
and throw on `.slice` — except arrays, which slice fine and are coerced
to strings by the `+` concatenation. -/
def maskSecretJ (v : Option Json) : Except Str (Option Json) :=
  match v with
  | none => .ok none
  | some .null => .ok (some .null)
  | some (.bool false) => .ok (some (.bool false))
  | some (.bool true) => .error (str "TypeError")
  | some (.num l) =>
    if numIsZero l then .ok (some (.num l)) else .error (str "TypeError")
  | some (.str s) => .ok (some (.str (maskSecret s)))
  | some (.arr xs) =>
    if xs.length ≤ 8 then .ok (some (.arr xs))
    else
      let visible := min 4 (xs.length / 4)
      .ok (some (.str (
        List.intercalate [','] ((xs.take visible).map (jsArrayItemStr 100))
        ++ List.replicate (xs.length - visible * 2) '█'
        ++ List.intercalate [',']
            ((xs.drop (xs.length - visible)).map (jsArrayItemStr 100)))))
  | some (.obj _) => .error (str "TypeError")

/-- `Promise.all` over fallible per-element computations: the first
rejection (in order) settles the whole batch. -/
def mapME {a b : Type} (f : a → Except Str b) : List a → Except Str (List b)
  | [] => .ok []
  | x :: rest =>
    match f x with
    | .error e => .error e
    | .ok y =>
      match mapME f rest with
      | .error e => .error e
      | .ok ys => .ok (y :: ys)

/-- `KingfisherScanner.transformFinding` on a dynamic raw finding. -/
def transformFindingE (env : Env) (requestId url method : Str)
    (raw : Json) : Except Str Finding := do
  let f ← jsProp raw (str "finding")
  let confRaw ← jsPropU f (str "confidence")
  let confidence ← normalizeConfidenceJ confRaw
  let rule ← jsProp raw (str "rule")
  let ruleId ← jsPropU rule (str "id")
  let ruleName ← jsPropU rule (str "name")
  let snipRaw ← jsPropU f (str "snippet")
  let snippet ← maskSecretJ snipRaw
  let path ← jsPropU f (str "path")
  let fingerprint ← jsPropU f (str "fingerprint")
  let validation ← jsPropU f (str "validation")
  pure { id := env.uuid, requestId, url, method, timestamp := env.time,
         ruleId, ruleName, confidence, snippet, rawSnippet := snipRaw,
         path, fingerprint, validation }

/-- `record?.request?.getUrl() || "unknown"`: falls back on a missing
record or an empty (falsy) string. -/
def urlOf (env : Env) (id : Str) : Str :=
  match env.db id with
  | some rec => if rec.url = [] then str "unknown" else rec.url
  | none => str "unknown"

/-- `record?.request?.getMethod() || "GET"`. -/
def methodOf (env : Env) (id : Str) : Str :=
  match env.db id with
  | some rec => if rec.method = [] then str "GET" else rec.method
  | none => str "GET"

/-- One entry of the result-building phase (scanner.ts:829-845). -/
def buildResult (env : Env) (combined : Str)
    (groups : List (Option Json × List Json)) (entry : Str × Str) :
    Except Str ScanResult :=
  Except.bind
    (mapME (transformFindingE env entry.2 (urlOf env entry.2)
      (methodOf env entry.2)) (groupsGet groups entry.1))
    (fun findings => .ok
      { requestId := entry.2, findings, error := none,
        duration := env.dur, rawOutput := some combined })

/-- `finalStdout`: the `--output` file content when it could be read
back, else the captured stdout (scanner.ts:782-790). -/
def finalStdoutOf (env : Env) : Str :=
  match env.outputFileContent with
  | some c => c
  | none => env.exec.stdout

/-- The combined diagnostic output (scanner.ts:816). -/
def combinedOutput (env : Env) : Str :=
  str "STDOUT:\n" ++ env.exec.stdout ++ str "\n\nSTDERR:\n"
    ++ env.exec.stderr ++ str "\n\nOUTPUT FILE CONTENT:\n"
    ++ finalStdoutOf env

/-- The post-subprocess phase that can throw (grouping and result
building). -/
def buildPhase (env : Env) (combined : Str) (rawFindings : List Json)
    (tempFiles : List (Str × Str)) : Except Str (List ScanResult) :=
  match groupByPath rawFindings with
  | .error e => .error e
  | .ok groups => mapME (buildResult env combined groups) tempFiles

/-- `KingfisherScanner.scanBatch`, with its file-system event trace.
The `try` block is the `Except`-success path; any throw lands in the
`catch`, which returns one error result per requested id and deletes
whatever the `tempFiles` map holds at that point (nothing, when the
write phase itself rejected). -/
def scanBatchT (env : Env) (requestIds : List Str) :
    List ScanResult × List FsEvent :=
  let evsW := tempEvents env requestIds
  if anyWriteFails env requestIds then
    (requestIds.map (fun id =>
      { requestId := id, findings := [], error := some env.writeErrMsg,
        duration := env.dur, rawOutput := none }), evsW)
  else
    let errResults := notFoundResults env requestIds
    let tempFiles := buildTempMap env requestIds
    if tempFiles.length = 0 then (errResults, evsW)
    else
      let cleanup := tempFiles.map (fun p => FsEvent.del p.1)
        ++ [FsEvent.del (outPath env)]
      match buildPhase env (combinedOutput env)
          (collectRawFindings (finalStdoutOf env)) tempFiles with
      | .ok built =>
        (errResults ++ built, evsW ++ FsEvent.execPoint :: cleanup)
      | .error msg =>
        (requestIds.map (fun id =>
          { requestId := id, findings := [], error := some msg,
            duration := env.dur, rawOutput := none }),
         evsW ++ FsEvent.execPoint :: cleanup)

def scanBatch (env : Env) (requestIds : List Str) : List ScanResult :=
  (scanBatchT env requestIds).1

/-- `requestIds.slice(i, i + BATCH_SIZE)` chunking (fuelled). -/
def chunksOfF : Nat → Nat → List Str → List (List Str)
  | 0, _, _ => []
  | _ + 1, _, [] => []
  | f + 1, n, l => l.take n :: chunksOfF f n (l.drop n)

def chunksOf (n : Nat) (l : List Str) : List (List Str) :=
  chunksOfF (l.length + 1) n l

/-- `KingfisherScanner.scan` with its trace: the binary-unavailable
path returns one error result per id; otherwise the batches (of
`BATCH_SIZE = 100`) run and their results are concatenated in batch
order (the `MAX_PARALLEL_BATCHES` grouping preserves that order). -/
def scanT (env : Env) (requestIds : List Str) :
    List ScanResult × List FsEvent :=
  match env.binary with
  | none =>
    (requestIds.map (fun id =>
      { requestId := id, findings := [],
        error := some (str "Kingfisher binary not found and could not be installed"),
        duration := 0, rawOutput := none }), [])
  | some _ =>
    let batches := chunksOf 100 requestIds
    ((batches.map (fun b => (scanBatchT env b).1)).flatten,
     (batches.map (fun b => (scanBatchT env b).2)).flatten)

def scan (env : Env) (requestIds : List Str) : List ScanResult :=
  (scanT env requestIds).1

/-! ## `FindingsStore` (findings.ts) and the `scanRequests` handler
(index.ts:26-55) -/

structure StoreState where
  findings : List (Str × Finding)
  totalScanned : Nat
  lastScanTime : Option Nat

/-- `FindingsStore.add`: `Map.set` keyed by the finding id, and refresh
the last-scan timestamp. -/
def storeAdd (t : Nat) (st : StoreState) (f : Finding) : StoreState :=
  { st with
    findings :=
      if st.findings.any (fun p => p.1 = f.id) then
        st.findings.map (fun p => if p.1 = f.id then (f.id, f) else p)
      else st.findings ++ [(f.id, f)],
    lastScanTime := some t }

/-- `FindingsStore.incrementScanned` (findings.ts:45-48).  No call site
exists anywhere in the backend. -/
def incrementScanned (t : Nat) (st : StoreState) (count : Nat) :
    StoreState :=
  { st with totalScanned := st.totalScanned + count,
            lastScanTime := some t }

structure PluginStats where
  totalScanned : Nat
  totalFindings : Nat
  lastScanTime : Option Nat

/-- `FindingsStore.getStats` (findings.ts:50-56). -/
def getStats (st : StoreState) : PluginStats :=
  { totalScanned := st.totalScanned, totalFindings := st.findings.length,
    lastScanTime := st.lastScanTime }

/-- The `scanRequests` API handler: guard non-arrays and empty id lists,
run the scan, store every finding of every result.  Nothing in the
handler or the store can throw, so the surrounding `catch` is
unreachable. -/
def scanRequestsT (env : Env) (st : StoreState) (ids : Option (List Str)) :
    List ScanResult × StoreState × List FsEvent :=
  match ids with
  | none => ([], st, [])
  | some l =>
    if l.length = 0 then ([], st, [])
    else
      let run := scanT env l
      let st2 := run.1.foldl
        (fun s r => r.findings.foldl (storeAdd env.time) s) st
      (run.1, st2, run.2)

/-! ## Concrete environments for witnesses and counterexamples -/

def recA : RecordData :=
  { rawRequest := str "GET / HTTP/1.1", rawResponse := some (str "HTTP/1.1 200 OK"),
    url := str "http://x/", method := str "GET" }

def envBase : Env :=
  { db := fun _ => none, writeFails := fun _ => false,
    writeErrMsg := str "EACCES", time := 5, dur := 7,
    exec := { stdout := [], stderr := [], exitCode := 0 },
    outputFileContent := none,
    binary := some (str "/root/.local/bin/kingfisher"), uuid := str "uid1" }

/-- Environment where both records resolve but the write for `r1`
throws. -/
def envW : Env :=
  { envBase with db := fun _ => some recA,
                 writeFails := fun id => decide (id = str "r1") }

/-- Environment where every record resolves and every write succeeds. -/
def envOk : Env := { envBase with db := fun _ => some recA }

def emptyStore : StoreState :=
  { findings := [], totalScanned := 0, lastScanTime := none }

/-! ## C6 — per-record artifact-write failure -/

/-- **C6 (code bug)** — when the artifact write for `r1` alone throws,
the rejection escapes the per-record callback and `Promise.all` rejects
the whole batch: *both* records receive the write error, the subprocess
is never invoked (no `execPoint` in the trace), and `r2`'s
already-written artifact is not even cleaned up (the `tempFiles` map is
still empty when the catch runs).  The claimed per-record treatment
(`r1` alone failed, `r2` proceeds) does not happen; the per-record
`"Failed to create temp file"` branch of the code is unreachable. -/
theorem scanBatch_write_failure_batchwide :
    (envW.db (str "r1")).isSome = true ∧
    (envW.db (str "r2")).isSome = true ∧
    envW.writeFails (str "r1") = true ∧
    envW.writeFails (str "r2") = false ∧
    scanBatchT envW [str "r1", str "r2"] =
      ([{ requestId := str "r1", findings := [],
          error := some (str "EACCES"), duration := 7, rawOutput := none },
        { requestId := str "r2", findings := [],
          error := some (str "EACCES"), duration := 7, rawOutput := none }],
       [FsEvent.write (str "/tmp/kingfisher-r2-5.txt")]) ∧
    FsEvent.execPoint ∉ (scanBatchT envW [str "r1", str "r2"]).2 := by
  refine ⟨rfl, rfl, by decide, by decide, rfl, by decide⟩

/-! ## C7 — the total-scanned counter -/

theorem storeAdd_fold_totalScanned (t : Nat) :
    ∀ (fs : List Finding) (s : StoreState),
      (fs.foldl (storeAdd t) s).totalScanned = s.totalScanned := by
  intro fs
  induction fs with
  | nil => intro s; rfl
  | cons f rest ih =>
    intro s
    rw [List.foldl_cons, ih]
    rfl

theorem results_fold_totalScanned (t : Nat) :
    ∀ (rs : List ScanResult) (s : StoreState),
      (rs.foldl (fun s r => r.findings.foldl (storeAdd t) s) s).totalScanned
        = s.totalScanned := by
  intro rs
  induction rs with
  | nil => intro s; rfl
  | cons r rest ih =>
    intro s
    rw [List.foldl_cons, ih, storeAdd_fold_totalScanned]

/-- **C7 (code bug)** — no call of the `scanRequests` handler ever
changes the stored total-scanned counter: the handler never invokes
`FindingsStore.incrementScanned` (which has no call site at all), so
the counter `getStats` reports as `totalScanned` keeps its initial
value forever; in particular a scan of one id leaves it at 0 instead of
incrementing it by 1. -/
theorem scanRequests_totalScanned_unchanged :
    (∀ (env : Env) (st : StoreState) (ids : Option (List Str)),
      ((scanRequestsT env st ids).2.1).totalScanned = st.totalScanned) ∧
    (∀ st : StoreState, (getStats st).totalScanned = st.totalScanned) ∧
    ((scanRequestsT envOk emptyStore (some [str "r1"])).1.length = 1 ∧
     (getStats (scanRequestsT envOk emptyStore (some [str "r1"])).2.1).totalScanned
       = 0) := by
  refine ⟨?_, fun st => rfl, by decide, ?_⟩
  · intro env st ids
    match ids with
    | none => rfl
    | some l =>
      by_cases h : l.length = 0
      · simp [scanRequestsT, h]
      · simp only [scanRequestsT, h, if_false]
        exact results_fold_totalScanned env.time _ st
  · have h := results_fold_totalScanned envOk.time
      (scanT envOk [str "r1"]).1 emptyStore
    simp only [scanRequestsT]
    rw [if_neg (by decide)]
    simp only [getStats]
    rw [h]
    rfl

/-! ## C10 — the empty-input guard -/

/-- **C10** — a `scanRequests` call with a non-array (`none`) or empty
id list returns the empty result list immediately, leaves the store
untouched, and produces no file-system or subprocess activity (an
empty trace, and no part of the result depends on the environment —
the equation holds for every `env`, so no binary resolution outcome is
even consulted). -/
theorem scanRequests_empty_guard :
    ∀ (env : Env) (st : StoreState) (ids : Option (List Str)),
      ids = none ∨ ids = some [] →
      scanRequestsT env st ids = ([], st, []) := by
  rintro env st _ (rfl | rfl)
  · rfl
  · rfl

/-- Witness for C10 at a concrete store and environment. -/
theorem scanRequests_empty_guard_witness :
    scanRequestsT envOk emptyStore (some []) = ([], emptyStore, []) :=
  scanRequests_empty_guard envOk emptyStore (some []) (Or.inr rfl)

/-! ## C2 — artifact lifecycle -/

theorem filterMap_eq_map_of {α β : Type} (f : α → Option β) (g : α → β) :
    ∀ l : List α, (∀ x ∈ l, f x = some (g x)) → l.filterMap f = l.map g := by
  intro l
  induction l with
  | nil => intro _; rfl
  | cons x rest ih =>
    intro h
    rw [List.filterMap_cons, h x (by simp), List.map_cons,
      ih (fun y hy => h y (by simp [hy]))]

theorem keys_mapSet (m : List (Str × Str)) (k v : Str) :
    (mapSet m k v).map (fun p => p.1)
      = if m.any (fun p => decide (p.1 = k)) then m.map (fun p => p.1)
        else m.map (fun p => p.1) ++ [k] := by
  unfold mapSet
  by_cases h : m.any (fun p => decide (p.1 = k)) = true
  · simp only [h, if_true, List.map_map]
    apply List.map_congr_left
    intro p _
    by_cases hp : p.1 = k
    · simp [hp]
    · simp [hp]
  · simp only [Bool.not_eq_true] at h
    simp [h]

theorem foldTempMap_keys_preserve (env : Env) :
    ∀ (ids : List Str) (m : List (Str × Str)) (k : Str),
      k ∈ m.map (fun p => p.1) →
      k ∈ ((ids.foldl (fun m id =>
        match tempOutcome env id with
        | .written p => mapSet m p id
        | _ => m) m).map (fun p => p.1)) := by
  intro ids
  induction ids with
  | nil => intro m k hk; exact hk
  | cons id rest ih =>
    intro m k hk
    rw [List.foldl_cons]
    rcases hout : tempOutcome env id with _ | p | _
    · exact ih m k hk
    · refine ih _ k ?_
      rw [keys_mapSet]
      by_cases h : m.any (fun q => decide (q.1 = p)) = true
      · simpa [h] using hk
      · simp only [Bool.not_eq_true] at h
        simp only [h, Bool.false_eq_true, if_false, List.mem_append]
        exact Or.inl hk
    · exact ih m k hk

theorem buildTempMap_keys_mem (env : Env) :
    ∀ (ids : List Str) (m : List (Str × Str)) (id : Str) (p : Str),
      id ∈ ids → tempOutcome env id = .written p →
      p ∈ ((ids.foldl (fun m id =>
        match tempOutcome env id with
        | .written p => mapSet m p id
        | _ => m) m).map (fun q => q.1)) := by
  intro ids
  induction ids with
  | nil => intro m id p h; exact absurd h (by simp)
  | cons id0 rest ih =>
    intro m id p hmem hout
    rw [List.foldl_cons]
    rcases List.mem_cons.mp hmem with rfl | htail
    · rw [hout]
      refine foldTempMap_keys_preserve env rest _ p ?_
      rw [keys_mapSet]
      by_cases h : m.any (fun q => decide (q.1 = p)) = true
      · simp only [h, if_true]
        rcases List.any_eq_true.mp h with ⟨q, hq, hq2⟩
        exact List.mem_map.mpr ⟨q, hq, (decide_eq_true_eq.mp hq2)⟩
      · simp only [Bool.not_eq_true] at h
        simp [h]
    · rcases hout0 : tempOutcome env id0 with _ | p0 | _
      · exact ih m id p htail hout
      · exact ih _ id p htail hout
      · exact ih m id p htail hout

theorem any_eq_false_of {α : Type} (f : α → Bool) :
    ∀ l : List α, (∀ x ∈ l, f x = false) → l.any f = false := by
  intro l
  induction l with
  | nil => intro _; rfl
  | cons x rest ih =>
    intro h
    rw [List.any_cons, h x (by simp), ih (fun y hy => h y (by simp [hy]))]
    rfl

/-- **C2** — for a nonempty batch in which every store lookup and every
artifact write succeeds, the file-system trace of `scanBatch` splits at
the single subprocess invocation: before it, exactly one write event
per record id (its temp artifact, `N` in all); after it, only delete
events, among them one for every record's artifact — and this holds for
every subprocess outcome (success, nonzero exit, timeout exit 124),
every output-file read outcome, and both the successful and the
throwing result-building path. -/
theorem scanBatch_artifact_lifecycle (env : Env) (ids : List Str)
    (hne : ids ≠ [])
    (hok : ∀ id ∈ ids, (env.db id).isSome = true ∧ env.writeFails id = false) :
    ∃ pre post,
      (scanBatchT env ids).2 = pre ++ FsEvent.execPoint :: post ∧
      pre = ids.map (fun id => FsEvent.write (tempPath env.time id)) ∧
      pre.length = ids.length ∧
      (∀ id ∈ ids, FsEvent.del (tempPath env.time id) ∈ post) ∧
      (∀ e ∈ post, ∃ p, e = FsEvent.del p) := by
  have hwr : ∀ id ∈ ids, tempOutcome env id = .written (tempPath env.time id) := by
    intro id hid
    rcases hok id hid with ⟨h1, h2⟩
    rcases Option.isSome_iff_exists.mp h1 with ⟨rec, hrec⟩
    unfold tempOutcome
    rw [hrec, h2]
    rfl
  have hfail : anyWriteFails env ids = false := by
    apply any_eq_false_of
    intro id hid
    rw [hwr id hid]
  have hevents : tempEvents env ids
      = ids.map (fun id => FsEvent.write (tempPath env.time id)) := by
    apply filterMap_eq_map_of
    intro id hid
    rw [hwr id hid]
  have htfne : (buildTempMap env ids).length ≠ 0 := by
    rcases ids with _ | ⟨id0, rest⟩
    · exact absurd rfl hne
    · intro hlen
      have hmem := buildTempMap_keys_mem env (id0 :: rest) [] id0
        (tempPath env.time id0) (by simp) (hwr id0 (by simp))
      have : buildTempMap env (id0 :: rest) = [] :=
        List.length_eq_zero.mp hlen
      rw [show ((id0 :: rest).foldl (fun m id =>
        match tempOutcome env id with
        | .written p => mapSet m p id
        | _ => m) ([] : List (Str × Str))) = buildTempMap env (id0 :: rest)
        from rfl, this] at hmem
      simp at hmem
  have hdelmem : ∀ id ∈ ids,
      FsEvent.del (tempPath env.time id)
        ∈ ((buildTempMap env ids).map (fun p => FsEvent.del p.1)
            ++ [FsEvent.del (outPath env)]) := by
    intro id hid
    have hmem := buildTempMap_keys_mem env ids [] id
      (tempPath env.time id) hid (hwr id hid)
    rcases List.mem_map.mp hmem with ⟨q, hq, hq2⟩
    exact List.mem_append.mpr (Or.inl
      (List.mem_map.mpr ⟨q, hq, by rw [hq2]⟩))
  have hdelshape : ∀ e ∈ ((buildTempMap env ids).map
        (fun p => FsEvent.del p.1) ++ [FsEvent.del (outPath env)]),
      ∃ p, e = FsEvent.del p := by
    intro e he
    rcases List.mem_append.mp he with h | h
    · rcases List.mem_map.mp h with ⟨q, _, hq⟩
      exact ⟨q.1, hq.symm⟩
    · simp only [List.mem_singleton] at h
      exact ⟨outPath env, h⟩
  refine ⟨tempEvents env ids,
    (buildTempMap env ids).map (fun p => FsEvent.del p.1)
      ++ [FsEvent.del (outPath env)], ?_, hevents, ?_, hdelmem, hdelshape⟩
  · unfold scanBatchT
    rw [hfail]
    simp only [Bool.false_eq_true, if_false]
    rw [if_neg htfne]
    rcases hbp : buildPhase env _ _ (buildTempMap env ids) with msg | built
    · rfl
    · rfl
  · rw [hevents, List.length_map]

/-- Witness for C2 at a concrete two-record batch. -/
theorem scanBatch_artifact_lifecycle_witness :
    ([str "r1", str "r2"] ≠ ([] : List Str)) ∧
    (∀ id ∈ [str "r1", str "r2"],
      (envOk.db id).isSome = true ∧ envOk.writeFails id = false) ∧
    (∃ pre post,
      (scanBatchT envOk [str "r1", str "r2"]).2
        = pre ++ FsEvent.execPoint :: post ∧
      pre = [str "r1", str "r2"].map
        (fun id => FsEvent.write (tempPath envOk.time id)) ∧
      pre.length = [str "r1", str "r2"].length ∧
      (∀ id ∈ [str "r1", str "r2"],
        FsEvent.del (tempPath envOk.time id) ∈ post) ∧
      (∀ e ∈ post, ∃ p, e = FsEvent.del p)) :=
  ⟨by decide, by decide,
    scanBatch_artifact_lifecycle envOk [str "r1", str "r2"]
      (by decide) (by decide)⟩

/-! ## C1 — one ScanResult per requested id -/

def isWrittenB (env : Env) (id : Str) : Bool :=
  match tempOutcome env id with
  | .written _ => true
  | _ => false

def isNotFoundB (env : Env) (id : Str) : Bool :=
  match tempOutcome env id with
  | .notFound => true
  | _ => false

def isFailedB (env : Env) (id : Str) : Bool :=
  match tempOutcome env id with
  | .failed => true
  | _ => false

theorem anyWriteFails_eq (env : Env) (ids : List Str) :
    anyWriteFails env ids = ids.any (isFailedB env) := rfl

theorem any_false_mem {α : Type} {f : α → Bool} {l : List α}
    (h : l.any f = false) : ∀ x ∈ l, f x = false := by
  intro x hx
  by_cases hfx : f x = true
  · have h2 := List.any_eq_true.mpr ⟨x, hx, hfx⟩
    rw [h] at h2
    exact absurd h2 (by simp)
  · simpa using hfx

theorem tempOutcome_written_path {env : Env} {id p : Str}
    (h : tempOutcome env id = .written p) : p = tempPath env.time id := by
  unfold tempOutcome at h
  rcases henv : env.db id with _ | rec
  · rw [henv] at h
    exact absurd h (by simp)
  · rw [henv] at h
    by_cases hw : env.writeFails id = true
    · rw [if_pos hw] at h
      exact absurd h (by simp)
    · rw [if_neg hw] at h
      injection h with h
      exact h.symm

theorem tempPath_inj {t : Nat} {a b : Str} (h : tempPath t a = tempPath t b) :
    a = b := by
  unfold tempPath at h
  exact List.append_cancel_left
    (List.append_cancel_right (List.append_cancel_right h))

theorem filterMap_eq_filter_map {α β : Type} (f : α → Option β)
    (p : α → Bool) (g : α → β) : ∀ l : List α,
    (∀ x ∈ l, f x = if p x then some (g x) else none) →
    l.filterMap f = (l.filter p).map g := by
  intro l
  induction l with
  | nil => intro _; rfl
  | cons x rest ih =>
    intro h
    rw [List.filterMap_cons, List.filter_cons, h x (by simp)]
    by_cases hp : p x = true
    · simp only [hp, if_true, List.map_cons]
      rw [ih (fun y hy => h y (by simp [hy]))]
    · simp only [Bool.not_eq_true] at hp
      simp only [hp, Bool.false_eq_true, if_false]
      exact ih (fun y hy => h y (by simp [hy]))

theorem notFoundResults_eq (env : Env) (ids : List Str) :
    notFoundResults env ids
      = (ids.filter (isNotFoundB env)).map (fun id =>
          { requestId := id, findings := [],
            error := some (str "Request not found"), duration := 0,
            rawOutput := none }) := by
  apply filterMap_eq_filter_map
  intro id _
  rcases h : tempOutcome env id <;> simp [isNotFoundB, h]

theorem foldTempMap_eq (env : Env) :
    ∀ (b : List Str), b.Nodup →
    ∀ (m : List (Str × Str)),
      (∀ id ∈ b, isWrittenB env id = true →
        tempPath env.time id ∉ m.map (fun p => p.1)) →
      (b.foldl (fun m id =>
        match tempOutcome env id with
        | .written p => mapSet m p id
        | _ => m) m)
        = m ++ (b.filter (isWrittenB env)).map
            (fun id => (tempPath env.time id, id)) := by
  intro b
  induction b with
  | nil =>
    intro _ m _
    simp
  | cons id0 rest ih =>
    intro hnd m hdis
    have hnd0 : id0 ∉ rest := (List.nodup_cons.mp hnd).1
    have hndr : rest.Nodup := (List.nodup_cons.mp hnd).2
    rw [List.foldl_cons, List.filter_cons]
    rcases hout : tempOutcome env id0 with _ | p | _
    · have hw : isWrittenB env id0 = false := by simp [isWrittenB, hout]
      simp only [hw, Bool.false_eq_true, if_false]
      exact ih hndr m (fun id hid hwid => hdis id (by simp [hid]) hwid)
    · have hp : p = tempPath env.time id0 := tempOutcome_written_path hout
      subst hp
      have hw : isWrittenB env id0 = true := by simp [isWrittenB, hout]
      simp only [hw, if_true, List.map_cons]
      have hnotin : tempPath env.time id0 ∉ m.map (fun p => p.1) :=
        hdis id0 (by simp) hw
      have hany : m.any (fun q => decide (q.1 = tempPath env.time id0))
          = false := by
        apply any_eq_false_of
        intro q hq
        by_cases he : q.1 = tempPath env.time id0
        · exact absurd (List.mem_map.mpr ⟨q, hq, he⟩) hnotin
        · simp [he]
      have hms : mapSet m (tempPath env.time id0) id0
          = m ++ [(tempPath env.time id0, id0)] := by
        unfold mapSet
        simp only [hany, Bool.false_eq_true, if_false]
      rw [hms, ih hndr (m ++ [(tempPath env.time id0, id0)]) ?_]
      · rw [List.append_assoc]
        rfl
      · intro id hid hwid
        rw [List.map_append]
        intro hmem
        rcases List.mem_append.mp hmem with h | h
        · exact hdis id (by simp [hid]) hwid h
        · simp only [List.map_cons, List.map_nil, List.mem_singleton] at h
          exact hnd0 (tempPath_inj h ▸ hid)
    · have hw : isWrittenB env id0 = false := by simp [isWrittenB, hout]
      simp only [hw, Bool.false_eq_true, if_false]
      exact ih hndr m (fun id hid hwid => hdis id (by simp [hid]) hwid)

theorem buildTempMap_eq (env : Env) (b : List Str) (hnd : b.Nodup) :
    buildTempMap env b
      = (b.filter (isWrittenB env)).map
          (fun id => (tempPath env.time id, id)) := by
  have := foldTempMap_eq env b hnd [] (by intro id _ _; simp)
  simpa [buildTempMap] using this

theorem buildResult_ok_id (env : Env) (combined : Str)
    (groups : List (Option Json × List Json)) (e : Str × Str)
    (r : ScanResult) (h : buildResult env combined groups e = .ok r) :
    r.requestId = e.2 := by
  unfold buildResult at h
  cases hx : mapME (transformFindingE env e.2 (urlOf env e.2)
      (methodOf env e.2)) (groupsGet groups e.1) with
  | error msg =>
    rw [hx] at h
    exact absurd h (by simp [Except.bind])
  | ok fs =>
    rw [hx] at h
    simp only [Except.bind, Except.ok.injEq] at h
    rw [← h]

theorem mapME_buildResult_ids (env : Env) (combined : Str)
    (groups : List (Option Json × List Json)) :
    ∀ (tf : List (Str × Str)) (built : List ScanResult),
      mapME (buildResult env combined groups) tf = .ok built →
      built.map (fun r => r.requestId) = tf.map (fun p => p.2) := by
  intro tf
  induction tf with
  | nil =>
    intro built h
    simp only [mapME, Except.ok.injEq] at h
    rw [← h]
    rfl
  | cons e rest ih =>
    intro built h
    simp only [mapME] at h
    cases hb : buildResult env combined groups e with
    | error msg =>
      rw [hb] at h
      exact absurd h (by simp)
    | ok r =>
      rw [hb] at h
      cases hrest : mapME (buildResult env combined groups) rest with
      | error msg =>
        rw [hrest] at h
        exact absurd h (by simp)
      | ok rs =>
        rw [hrest] at h
        simp only [Except.ok.injEq] at h
        rw [← h, List.map_cons, List.map_cons,
          buildResult_ok_id env combined groups e r hb, ih rs hrest]

/-- The requestIds of a batch's results are a permutation of the
requested (duplicate-free) ids — on the write-failure path, the early
return, the successful build and the throwing build alike. -/
theorem map_reqId_mk (g : Str → ScanResult)
    (hg : ∀ id, (g id).requestId = id) (l : List Str) :
    (l.map g).map (fun r => r.requestId) = l := by
  rw [List.map_map]
  have h : ((fun r : ScanResult => r.requestId) ∘ g) = fun id => id := by
    funext id
    exact hg id
  rw [h]
  exact List.map_id' l

/-- The requestIds of a batch's results are a permutation of the
requested (duplicate-free) ids — on the write-failure path, the early
return, the successful build and the throwing build alike. -/
theorem scanBatchT_perm (env : Env) (b : List Str) (hnd : b.Nodup) :
    (((scanBatchT env b).1.map (fun r => r.requestId))).Perm b := by
  unfold scanBatchT
  by_cases hfail : anyWriteFails env b = true
  · simp only [hfail, if_true]
    rw [map_reqId_mk _ (fun id => rfl)]
  · simp only [Bool.not_eq_true] at hfail
    simp only [hfail, Bool.false_eq_true, if_false]
    have hnofail : ∀ id ∈ b, isFailedB env id = false := by
      rw [anyWriteFails_eq] at hfail
      exact any_false_mem hfail
    have hcompl : ∀ id ∈ b, (fun x => !isNotFoundB env x) id
        = isWrittenB env id := by
      intro id hid
      have hnf := hnofail id hid
      rcases h : tempOutcome env id with _ | p | _
      · simp [isNotFoundB, isWrittenB, h]
      · simp [isNotFoundB, isWrittenB, h]
      · rw [isFailedB, h] at hnf
        exact absurd hnf (by simp)
    have hfa := List.filter_append_perm (isNotFoundB env) b
    rw [List.filter_congr hcompl] at hfa
    have htm := buildTempMap_eq env b hnd
    have herr := notFoundResults_eq env b
    by_cases hlen : (buildTempMap env b).length = 0
    · simp only [hlen, if_true]
      rw [herr, map_reqId_mk _ (fun id => rfl)]
      have hwnil : b.filter (isWrittenB env) = [] := by
        rw [htm, List.length_map] at hlen
        exact List.length_eq_zero.mp hlen
      rw [hwnil, List.append_nil] at hfa
      exact hfa
    · simp only [hlen, if_false]
      rcases hbp : buildPhase env (combinedOutput env)
          (collectRawFindings (finalStdoutOf env))
          (buildTempMap env b) with msg | built
      · dsimp only
        rw [map_reqId_mk _ (fun id => rfl)]
      · dsimp only
        simp only [List.map_append]
        have hbuilt : built.map (fun r => r.requestId)
            = (buildTempMap env b).map (fun p => p.2) := by
          unfold buildPhase at hbp
          cases hg : groupByPath (collectRawFindings (finalStdoutOf env)) with
          | error msg =>
            rw [hg] at hbp
            exact absurd hbp (fun h => Except.noConfusion h)
          | ok groups =>
            rw [hg] at hbp
            exact mapME_buildResult_ids env _ groups _ built hbp
        rw [herr, map_reqId_mk _ (fun id => rfl), hbuilt, htm,
          List.map_map]
        have h2 : (b.filter (isWrittenB env)).map
            ((fun p : Str × Str => p.2) ∘ (fun id =>
              (tempPath env.time id, id)))
            = b.filter (isWrittenB env) := by
          rw [show ((fun p : Str × Str => p.2) ∘ (fun id =>
            (tempPath env.time id, id))) = (fun id => id) from rfl]
          exact List.map_id' _
        rw [h2]
        exact hfa

theorem chunksOfF_mono {n : Nat} (hn : 0 < n) :
    ∀ (L : Nat) (l : List Str), l.length ≤ L → ∀ f g : Nat,
      l.length < f → l.length < g → chunksOfF f n l = chunksOfF g n l := by
  intro L
  induction L with
  | zero =>
    intro l hl f g hf hg
    have : l = [] := List.length_eq_zero.mp (Nat.le_zero.mp hl)
    subst this
    rcases f with _ | f1
    · omega
    rcases g with _ | g1
    · omega
    rfl
  | succ L ih =>
    intro l hl f g hf hg
    rcases f with _ | f1
    · omega
    rcases g with _ | g1
    · omega
    rcases l with _ | ⟨x, rest⟩
    · rfl
    · simp only [chunksOfF]
      have hdl : ((x :: rest).drop n).length = (x :: rest).length - n :=
        List.length_drop n (x :: rest)
      simp only [List.length_cons] at hdl hl hf hg
      rw [ih ((x :: rest).drop n) (by omega) f1 g1 (by omega) (by omega)]

theorem chunksOf_eq {n : Nat} (hn : 0 < n) (l : List Str) :
    chunksOf n l = if l = [] then [] else l.take n :: chunksOf n (l.drop n) := by
  rcases l with _ | ⟨x, rest⟩
  · rfl
  · simp only [if_neg (by simp : ¬(x :: rest = []))]
    unfold chunksOf
    simp only [List.length_cons, chunksOfF]
    have hdl : ((x :: rest).drop n).length = (x :: rest).length - n :=
      List.length_drop n (x :: rest)
    simp only [List.length_cons] at hdl
    rw [chunksOfF_mono hn ((x :: rest).drop n).length ((x :: rest).drop n)
      (Nat.le_refl _) (rest.length + 1) (((x :: rest).drop n).length + 1)
      (by omega) (by omega)]

theorem chunks_scan_perm (env : Env) :
    ∀ (L : Nat) (l : List Str), l.length ≤ L → l.Nodup →
      ((((chunksOf 100 l).map (fun b => (scanBatchT env b).1)).flatten.map
        (fun r => r.requestId))).Perm l := by
  intro L
  induction L with
  | zero =>
    intro l hl _
    have : l = [] := List.length_eq_zero.mp (Nat.le_zero.mp hl)
    subst this
    rfl
  | succ L ih =>
    intro l hl hnd
    rcases l with _ | ⟨x, rest⟩
    · rfl
    · rw [chunksOf_eq (by omega : 0 < 100) (x :: rest), if_neg (by simp)]
      simp only [List.map_cons, List.flatten_cons, List.map_append]
      have h1 : (((scanBatchT env ((x :: rest).take 100)).1).map
          (fun r => r.requestId)).Perm ((x :: rest).take 100) :=
        scanBatchT_perm env ((x :: rest).take 100)
          (hnd.sublist (List.take_sublist 100 (x :: rest)))
      have h2 : ((((chunksOf 100 ((x :: rest).drop 100)).map
          (fun b => (scanBatchT env b).1)).flatten.map
          (fun r => r.requestId))).Perm ((x :: rest).drop 100) := by
        refine ih ((x :: rest).drop 100) ?_
          (hnd.sublist (List.drop_sublist 100 (x :: rest)))
        have hdl := List.length_drop 100 (x :: rest)
        simp only [List.length_cons] at hdl hl ⊢
        omega
      have := h1.append h2
      rwa [List.take_append_drop 100 (x :: rest)] at this

theorem countP_eq_one_of_nodup_mem {l : List Str} (hnd : l.Nodup)
    {id : Str} (hid : id ∈ l) :
    l.countP (fun s => decide (s = id)) = 1 := by
  induction l with
  | nil => simp at hid
  | cons x rest ih =>
    rw [List.countP_cons]
    rcases List.mem_cons.mp hid with rfl | hmem
    · have hx : rest.countP (fun s => decide (s = id)) = 0 := by
        rw [List.countP_eq_zero]
        intro s hs
        have hne : s ≠ id := fun h => (List.nodup_cons.mp hnd).1 (h ▸ hs)
        simp [hne]
      rw [hx]
      simp
    · have hne2 : ¬(x = id) := fun h => (List.nodup_cons.mp hnd).1 (h ▸ hmem)
      rw [ih (List.nodup_cons.mp hnd).2 hmem]
      simp [hne2]

/-- **C1 (amended)** — for every environment (binary present or absent,
any store content, any write/subprocess/parse outcome) and every
duplicate-free list of record ids, the scan returns exactly one
ScanResult per input id: each input id has exactly one result carrying
it, every result's id is an input id, and no id appears twice. -/
theorem scan_one_result_per_id (env : Env) (ids : List Str)
    (hnd : ids.Nodup) :
    (∀ id ∈ ids, ((scan env ids).filter
      (fun r => decide (r.requestId = id))).length = 1) ∧
    (∀ r ∈ scan env ids, r.requestId ∈ ids) ∧
    ((scan env ids).map (fun r => r.requestId)).Nodup := by
  have hperm : (((scan env ids).map (fun r => r.requestId))).Perm ids := by
    unfold scan scanT
    rcases env.binary with _ | bin
    · simp only
      rw [map_reqId_mk _ (fun id => rfl)]
    · simp only
      exact chunks_scan_perm env ids.length ids (Nat.le_refl _) hnd
  refine ⟨?_, ?_, ?_⟩
  · intro id hid
    have h2 : ((scan env ids).filter
        (fun r => decide (r.requestId = id))).length
        = ((scan env ids).map (fun r => r.requestId)).countP
            (fun s => decide (s = id)) := by
      rw [List.countP_map, ← List.countP_eq_length_filter]
      rfl
    exact h2.trans ((hperm.countP_eq _).trans
      (countP_eq_one_of_nodup_mem hnd hid))
  · intro r hr
    have : r.requestId ∈ (scan env ids).map (fun r => r.requestId) :=
      List.mem_map.mpr ⟨r, hr, rfl⟩
    exact hperm.mem_iff.mp this
  · exact (hperm.nodup_iff).mpr hnd

/-- Environment where no record id resolves in the transaction store
and the binary is present. -/
def envCex : Env := { envBase with db := fun _ => none }

/-- 101 record ids with `"a"` at positions 0 and 100 (so the duplicate
lands in the second batch of the `BATCH_SIZE = 100` split); the other
99 ids are distinct runs of `'b'`. -/
def cexIds : List Str :=
  str "a" :: ((List.range 99).map (fun k => List.replicate (k + 1) 'b'))
    ++ [str "a"]

/-- **C1 (counterexample)** — with a duplicated input id the guarantee
fails: the id `"a"` occurs twice in the input (positions 0 and 100, in
different batches), and the scan returns *two* ScanResults whose
requestId is `"a"`, not exactly one — so "exactly one ScanResult whose
requestId equals each input id — no duplicates" is violated for an
input list with a repeated id. -/
theorem scan_duplicate_id_counterexample :
    cexIds.length = 101 ∧ str "a" ∈ cexIds ∧
    ((scan envCex cexIds).filter
      (fun r => decide (r.requestId = str "a"))).length = 2 := by
  refine ⟨by decide, by decide, by decide⟩

/-- Environment with a mixed store: `"x"` resolves, everything else is
unknown. -/
def envMix : Env :=
  { envBase with db := fun id => if id = str "x" then some recA else none }

/-- Witness for C1 (amended) on a duplicate-free two-id list mixing a
known and an unknown record. -/
theorem scan_one_result_per_id_witness :
    ([str "x", str "y"] : List Str).Nodup ∧
    ((∀ id ∈ ([str "x", str "y"] : List Str),
      ((scan envMix [str "x", str "y"]).filter
        (fun r => decide (r.requestId = id))).length = 1) ∧
     (∀ r ∈ scan envMix [str "x", str "y"],
        r.requestId ∈ ([str "x", str "y"] : List Str)) ∧
     ((scan envMix [str "x", str "y"]).map (fun r => r.requestId)).Nodup) :=
  ⟨by decide, scan_one_result_per_id envMix [str "x", str "y"] (by decide)⟩

end Burfisher
